import Mathlib

/-!
Verification of the souffle-tools RAM diagnostic toolkit.

This file shallowly embeds the repository's core passes:
the exit-code checks of the two acquisition parsers
(`souffle_tools/parsers/ram.py`, `souffle_tools/parsers/souffle.py`),
the index-inference pass (`souffle_tools/visitors/indexes.py`), and the
two plan renderers (`souffle_tools/visitors/plan.py` — the pseudo-Python
renderer A — and `souffle_tools/visitors/ram_plan.py` — the logic-notation
renderer B).  Each Lean definition is translated from the corresponding
Python function; raised Python exceptions are modelled as `Except.error`
values carrying the exception's kind.
-/

namespace SouffleTools

/-- Does `s` end with `suf`? (kernel-computable form of `str.endswith`). -/
def pyEndsWith (s suf : String) : Bool :=
  decide (s.data.drop (s.data.length - suf.data.length) = suf.data)
    && decide (suf.data.length ≤ s.data.length)

/-- Python's `str.removesuffix`: drop `suf` from the end of `s` when present,
otherwise return `s` unchanged. -/
def removeSuffix (s suf : String) : String :=
  if pyEndsWith s suf then s.dropRight suf.length else s

/-- A single-quote character, built numerically (code point 39). -/
def squote : String := String.singleton (Char.ofNat 39)

/-- Models CPython `repr` on the short option strings that appear here
(single-quoted, with backslash escapes for backslash, tab, newline,
carriage return and the quote itself; the quote-switching CPython applies
to strings containing a single quote is outside the payloads modelled). -/
def pyReprStr (s : String) : String :=
  let esc : Char → String := fun c =>
    if c = Char.ofNat 92 then "\\\\"
    else if c = Char.ofNat 9 then "\\t"
    else if c = Char.ofNat 10 then "\\n"
    else if c = Char.ofNat 13 then "\\r"
    else if c = Char.ofNat 39 then "\\" ++ squote
    else String.singleton c
  squote ++ String.join (s.data.map esc) ++ squote

/-- Insert a Nat into an ascending duplicate-free list, keeping it ascending
and duplicate-free.  This is the canonical representation of the Python
`set` accumulator `_tuple_attrs` in `IndexVisitor`: the set is only ever
observed through `sorted(...)`, so representing it as its sorted form is
observationally exact, and `sorted` becomes the identity. -/
def insertSorted (n : Nat) : List Nat → List Nat
  | [] => [n]
  | m :: ms =>
    if n < m then n :: m :: ms
    else if n = m then m :: ms
    else m :: insertSorted n ms

/-- Association-list model of a Python `dict` with string keys: lookup. -/
def dictGet {α : Type} : List (String × α) → String → Option α
  | [], _ => none
  | (k, v) :: rest, key => if k = key then some v else dictGet rest key

/-- Python `dict` assignment `d[k] = v`: replace in place when the key is
present, otherwise append. -/
def dictSet {α : Type} : List (String × α) → String → α → List (String × α)
  | [], key, v => [(key, v)]
  | (k, w) :: rest, key, v =>
    if k = key then (key, v) :: rest else (k, w) :: dictSet rest key v

/-- Python `del d[k]`: remove the entry, or fail (KeyError) when absent. -/
def dictDel {α : Type} : List (String × α) → String → Option (List (String × α))
  | [], _ => none
  | (k, w) :: rest, key =>
    if k = key then some rest
    else (dictDel rest key).map (fun r => (k, w) :: r)

/-- Accumulate the value of a decimal digit string (`none` on any
non-digit character, like `int`). -/
def pyToNatAux : List Char → Nat → Option Nat
  | [], acc => some acc
  | c :: rest, acc =>
    if 48 ≤ c.toNat ∧ c.toNat ≤ 57 then pyToNatAux rest (acc * 10 + (c.toNat - 48))
    else none

/-- Python `int` on a plain digit string (kernel-computable form of
`String.toNat?`): `none` on the empty string or any non-digit. -/
def pyToNat? (s : String) : Option Nat :=
  match s.data with
  | [] => none
  | l => pyToNatAux l 0

/-- Accumulator for splitting a character list on underscores. -/
def splitUnderscoreAux : List Char → List Char → List (List Char)
  | [], acc => [acc.reverse]
  | c :: rest, acc =>
    if c = Char.ofNat 95 then acc.reverse :: splitUnderscoreAux rest []
    else splitUnderscoreAux rest (c :: acc)

/-- Python `name.split("_")` (split on the underscore character; code
point 95). -/
def pySplitUnderscore (s : String) : List String :=
  (splitUnderscoreAux s.data []).map String.mk

/-- Stratum number embedded in a subroutine name: the name's second
underscore-delimited segment parsed as a number.  Models
`int(name.split("_")[1])` in both renderers' `program` methods; `none`
models the IndexError/ValueError Python raises on a malformed name
(souffle stratum names are identifier segments, so no sign characters
arise and `String.toNat?` matches `int`). -/
def extractStratum (name : String) : Option Nat :=
  match pySplitUnderscore name with
  | _ :: s :: _ => pyToNat? s
  | _ => none

/-- Stable insertion step: place `x` before the first element whose key is
not smaller.  Together with `sortStable` this is the unique stable sort by
`key`, hence the same ordering Python's stable `sorted(..., key=...)`
produces. -/
def insertLe {α : Type} (key : α → Nat) (x : α) : List α → List α
  | [] => [x]
  | y :: ys => if key x ≤ key y then x :: y :: ys else y :: insertLe key x ys

/-- Stable sort by a Nat key (insertion sort; stable, so it computes the
same list as Python's `sorted` with this key). -/
def sortStable {α : Type} (key : α → Nat) : List α → List α
  | [] => []
  | x :: xs => insertLe key x (sortStable key xs)

/-! ## Exit-code handling of the acquisition steps

`parsers/ram.py` and `parsers/souffle.py` run the external compiler (or the
C preprocessor) through `os.popen` and inspect `close()`.  `close()`
returns `None` when the subprocess exits with code 0 and a truthy nonzero
encoding of the exit code otherwise; we identify the encoding with the
code itself, since only zero-versus-nonzero and the carried value matter
here. -/

/-- Result of `os.popen(...).close()` for a subprocess exit code. -/
def popenClose (exitCode : Nat) : Option Nat :=
  if exitCode = 0 then none else some exitCode

/-- Python truthiness of the value `close()` returned (`None` and `0` are
falsy). -/
def pyTruthy : Option Nat → Bool
  | none => false
  | some n => n ≠ 0

/-- Python `value == 0` on the value `close()` returned (`None == 0` is
`False`). -/
def pyEqZero : Option Nat → Bool
  | none => false
  | some n => n = 0

/-- Error message raised by the souffle invocations. -/
def souffleErrMsg (fname : String) (ecode : Nat) : String :=
  "Souffle process failed on source file " ++ fname ++ ": exit code " ++ toString ecode

/-- Error message raised by the preprocessor invocation. -/
def cppErrMsg (fname : String) (ecode : Nat) : String :=
  "C preprocessor failed on source file " ++ fname ++ ": exit code " ++ toString ecode

/-- IR acquisition (`parsers/ram.py` `parse`): raises `SouffleError` iff the
walrus-bound `close()` value is truthy (`if ecode := souffle.close():`).
`some msg` models the raised error, `none` models no error. -/
def ramAcquireError (fname : String) (exitCode : Nat) : Option String :=
  match popenClose exitCode with
  | res => if pyTruthy res then res.map (souffleErrMsg fname) else none

/-- Transformed-source acquisition (`parsers/souffle.py` `parse` with
`use_transformed=True`): raises `SouffleError` iff
`(ecode := souffle.close()) == 0`. -/
def souffleTransformedAcquireError (fname : String) (exitCode : Nat) : Option String :=
  match popenClose exitCode with
  | res => if pyEqZero res then res.map (souffleErrMsg fname) else none

/-- Preprocessing acquisition (`parsers/souffle.py` `parse` with
`use_transformed=False`): raises `PreprocessorError` iff
`(ecode := preprocessor.close()) == 0`. -/
def cppAcquireError (fname : String) (exitCode : Nat) : Option String :=
  match popenClose exitCode with
  | res => if pyEqZero res then res.map (cppErrMsg fname) else none

/-! ## RAM tree model

Typed representation of the parsed RAM IR, following the shapes the
visitors consume (`forloop`, `if_stmt`, …).  Grammar-level artifacts
(tokens such as `LOOP` markers, the leading/trailing `program` children
sliced away by `children[1:-1]`) are dropped where no visitor observes
them. -/

/-- A relation's schema (`visitors/relations.py` `Relation`). -/
structure Relation where
  relname : String
  attrs : List (String × String)
deriving Repr, DecidableEq

/-- Generation tag of a relation reference (the token preceding the
qualified name in a `ram_relname` node). -/
inductive RelTag where
  | newRel | delta | delete | reject
deriving Repr, DecidableEq

/-- A `ram_relname` node: optional generation tag plus a qualified name
(dot-separated segments). -/
structure RamRelname where
  tag : Option RelTag
  qname : List String
deriving Repr, DecidableEq

/-- `".".join(...)` over a qualified name's segments (`qualified_name`
visitor methods). -/
def qjoin (segs : List String) : String := String.intercalate "." segs

/-- Functor position in a `functor_call`: a builtin token or a
`userdef_functor` wrapper around a qualified name. -/
inductive RamFunctor where
  | builtin (name : String)
  | userdef (qname : List String)
deriving Repr, DecidableEq

/-- Tuple-element expressions (`tuple_element_*` nodes). -/
inductive TupleElement where
  | lit (v : String)
  | ref (tupleName : String) (col : Nat)
  | add (xs : List TupleElement)
  | sub (xs : List TupleElement)
  | undef
  | functorCall (f : RamFunctor) (args : List TupleElement)
  | bracketed (e : TupleElement)
  | record (xs : List TupleElement)
deriving Repr

/-- Conditions (children of a `ram_cond` node). -/
inductive Cond where
  | orC (xs : List Cond)
  | andC (xs : List Cond)
  | notC (c : Cond)
  | inC (e : TupleElement) (rel : RamRelname)
  | existsC (v : String) (rel : RamRelname)
  | isEmpty (rel : RamRelname)
  | compare (lhs : TupleElement) (op : String) (rhs : TupleElement)
  | bracketedC (c : Cond)
deriving Repr

/-- A `ram_cond` node: the list of its condition children, joined by the
renderers with `" and "` / `", "`. -/
abbrev RamCond := List Cond

/-- Operations nested inside a `query_stmt`. -/
inductive Op where
  | declare (target : TupleElement) (aggregator : String) (tupleName : String)
      (rel : RamRelname) (inner : Op)
  | forloop (tupleName : String) (rel : RamRelname) (onIndex : Option RamCond) (inner : Op)
  | ifOp (cond : RamCond) (onIndex : Option RamCond) (breaks : Bool) (inner : Op)
  | unpack (iden : String) (r : TupleElement) (inner : Op)
  | insert (tup : List TupleElement) (rel : RamRelname)
  | erase (tup : List TupleElement) (rel : RamRelname)
deriving Repr

/-- Subroutine statements. -/
inductive Stmt where
  | loop (body : List Stmt)
  | query (op : Op)
  | debug (info : String) (inner : Stmt)
  | clear (rel : RamRelname)
  | swap (r1 r2 : RamRelname)
  | exitS (cond : RamCond)
  | io (rel : RamRelname) (options : List (String × String))
deriving Repr

/-- A subroutine: name token plus statement list. -/
structure Sub where
  name : String
  stmts : List Stmt
deriving Repr

/-- The schema catalog: relation name to schema, as built by
`RelationVisitor` (a Python dict; association list with unique keys). -/
abbrev Catalog := List (String × Relation)

end SouffleTools

namespace SouffleTools

/-! ## Index inference (`visitors/indexes.py`)

`IndexVisitor` keeps three mutable fields: `_tuple_name` (the variable
whose refs are being collected, `None` outside `_add_index`),
`_tuple_attrs` (the accumulator set of referenced column indices) and
`indexes` (a per-relation defaultdict of descriptors; modelled flat, in
append order, since the dict groups appends by key preserving order).
`assert` failures and Python `IndexError` are modelled as `Except.error`. -/

/-- A BTree index descriptor (`SouffleBTreeIndex`). -/
structure SouffleBTreeIndex where
  relname : String
  attrs : List (String × String)
deriving Repr, DecidableEq

mutual
/-- Collect referenced column indices of `nameOpt` from a tuple element,
extending the accumulator. Models `IndexVisitor.tuple_element_ref`
(`if self._tuple_name == str(tree.children[0]): self._tuple_attrs.add(...)`)
under the default `Interpreter` traversal of all child trees; comparing a
`None` tuple name with a ref's name is `False`, matching Python. -/
def collectElem (nameOpt : Option String) (acc : List Nat) : TupleElement → List Nat
  | .lit _ => acc
  | .ref tn i => if nameOpt = some tn then insertSorted i acc else acc
  | .add xs => collectElems nameOpt acc xs
  | .sub xs => collectElems nameOpt acc xs
  | .undef => acc
  | .functorCall _ args => collectElems nameOpt acc args
  | .bracketed e => collectElem nameOpt acc e
  | .record xs => collectElems nameOpt acc xs

def collectElems (nameOpt : Option String) (acc : List Nat) : List TupleElement → List Nat
  | [] => acc
  | e :: es => collectElems nameOpt (collectElem nameOpt acc e) es
end

mutual
/-- Collect referenced column indices from a condition subtree (default
traversal of `IndexVisitor` over condition children). -/
def collectCond (nameOpt : Option String) (acc : List Nat) : Cond → List Nat
  | .orC xs => collectConds nameOpt acc xs
  | .andC xs => collectConds nameOpt acc xs
  | .notC c => collectCond nameOpt acc c
  | .inC e _ => collectElem nameOpt acc e
  | .existsC _ _ => acc
  | .isEmpty _ => acc
  | .compare lhs _ rhs => collectElem nameOpt (collectElem nameOpt acc lhs) rhs
  | .bracketedC c => collectCond nameOpt acc c

def collectConds (nameOpt : Option String) (acc : List Nat) : List Cond → List Nat
  | [] => acc
  | c :: cs => collectConds nameOpt (collectCond nameOpt acc c) cs
end

/-- Collect referenced column indices from an `on_index` condition node
(a `ram_cond` list of conjuncts). -/
def collectRamCond (nameOpt : Option String) (acc : List Nat) (rc : RamCond) : List Nat :=
  collectConds nameOpt acc rc

/-- State of the `IndexVisitor` traversal: the two accumulator fields plus
the emitted descriptors in append order. -/
structure IdxState where
  tupleName : Option String
  tupleAttrs : List Nat
  indexes : List SouffleBTreeIndex
deriving Repr, DecidableEq

/-- Fresh `IndexVisitor` state (`__init__`). -/
def idxInit : IdxState := ⟨none, [], []⟩

/-- Look up the relation's schema attributes at the collected indices:
`map(self.rels[relname].attrs.__getitem__, sorted(self._tuple_attrs))`.
Python list indexing out of range raises IndexError. -/
def attrsAt (rel : Relation) : List Nat → Except String (List (String × String))
  | [] => .ok []
  | i :: is =>
    match rel.attrs.get? i with
    | some a => (attrsAt rel is).map (fun rest => a :: rest)
    | none => .error "IndexError"

/-- `IndexVisitor._add_index`: set `_tuple_name`, assert the relation is in
the catalog, visit the on-index condition to gather attributes, emit one
descriptor from the schema at the sorted collected indices, then reset
both accumulator fields.  The accumulator set starts from the state's
current `tupleAttrs`, faithfully modelling the field shared across calls. -/
def addIndex (rels : Catalog) (st : IdxState) (tupleName relname : String)
    (onIndex : RamCond) : Except String IdxState :=
  match dictGet rels relname with
  | none => .error "AssertionError"
  | some rel =>
    match attrsAt rel (collectRamCond (some tupleName) st.tupleAttrs onIndex) with
    | .error e => .error e
    | .ok attrs =>
      .ok { tupleName := none, tupleAttrs := [],
            indexes := st.indexes ++ [⟨relname, attrs⟩] }

/-- `IndexVisitor` traversal over operations.  `forloop` has a dedicated
method (add an index when an `on_index` child is present, then visit the
body); every other operation is traversed by the default `Interpreter`
handler, which visits all child trees — condition and tuple-element
children feed `tuple_element_ref`, so they thread the state too. -/
def visitOpIdx (rels : Catalog) (st : IdxState) : Op → Except String IdxState
  | .declare target _ _ _ inner =>
    visitOpIdx rels { st with tupleAttrs := collectElem st.tupleName st.tupleAttrs target } inner
  | .forloop t rel onIndex inner =>
    match onIndex with
    | some rc =>
      match addIndex rels st t (qjoin rel.qname) rc with
      | .error e => .error e
      | .ok st1 => visitOpIdx rels st1 inner
    | none => visitOpIdx rels st inner
  | .ifOp cond onIndex _ inner =>
    let st1 : IdxState := { st with tupleAttrs := collectRamCond st.tupleName st.tupleAttrs cond }
    let st2 : IdxState :=
      match onIndex with
      | some rc => { st1 with tupleAttrs := collectRamCond st1.tupleName st1.tupleAttrs rc }
      | none => st1
    visitOpIdx rels st2 inner
  | .unpack _ r inner =>
    visitOpIdx rels { st with tupleAttrs := collectElem st.tupleName st.tupleAttrs r } inner
  | .insert tup _ =>
    .ok { st with tupleAttrs := collectElems st.tupleName st.tupleAttrs tup }
  | .erase tup _ =>
    .ok { st with tupleAttrs := collectElems st.tupleName st.tupleAttrs tup }

mutual
/-- `IndexVisitor` traversal over statements (all via the default handler,
which visits every child tree). -/
def visitStmtIdx (rels : Catalog) (st : IdxState) : Stmt → Except String IdxState
  | .loop body => visitStmtsIdx rels st body
  | .query op => visitOpIdx rels st op
  | .debug _ inner => visitStmtIdx rels st inner
  | .clear _ => .ok st
  | .swap _ _ => .ok st
  | .exitS cond => .ok { st with tupleAttrs := collectRamCond st.tupleName st.tupleAttrs cond }
  | .io _ _ => .ok st

def visitStmtsIdx (rels : Catalog) (st : IdxState) : List Stmt → Except String IdxState
  | [] => .ok st
  | s :: rest =>
    match visitStmtIdx rels st s with
    | .error e => .error e
    | .ok st1 => visitStmtsIdx rels st1 rest
end

/-- `IndexVisitor` traversal over a whole program. -/
def visitProgIdx (rels : Catalog) (st : IdxState) : List Sub → Except String IdxState
  | [] => .ok st
  | sub :: rest =>
    match visitStmtsIdx rels st sub.stmts with
    | .error e => .error e
    | .ok st1 => visitProgIdx rels st1 rest

/-- The index-inference pass: run the visitor from a fresh state and read
off the emitted descriptors (in append order; the defaultdict groups them
by relation name preserving this order). -/
def inferIndexes (rels : Catalog) (prog : List Sub) : Except String (List SouffleBTreeIndex) :=
  match visitProgIdx rels idxInit prog with
  | .error e => .error e
  | .ok st => .ok st.indexes

/-- Referenced-column indices of one loop's own on-index condition with
respect to its own bound variable, starting from a fresh empty
accumulator.  This is the per-loop independent-accumulator reading of the
spec ("open a fresh accumulator ... collecting every `Ref(t, i)` where `t`
equals this loop's bound variable"). -/
def condRefs (t : String) (rc : RamCond) : List Nat :=
  collectRamCond (some t) [] rc

/-- Per-loop specification of the index-inference pass, following the
spec's words: every `ForLoop` carrying an on-index condition contributes,
in traversal order, one descriptor built from its relation's schema at the
sorted column indices its own bound variable references in its own
on-index condition, with an accumulator independent of every other loop. -/
def specOpIdx (rels : Catalog) : Op → Except String (List SouffleBTreeIndex)
  | .declare _ _ _ _ inner => specOpIdx rels inner
  | .forloop t rel onIndex inner =>
    match onIndex with
    | some rc =>
      let relname := qjoin rel.qname
      (match dictGet rels relname with
       | none => .error "AssertionError"
       | some r =>
         match attrsAt r (condRefs t rc) with
         | .error e => .error e
         | .ok attrs =>
           match specOpIdx rels inner with
           | .error e => .error e
           | .ok rest => .ok (⟨relname, attrs⟩ :: rest))
    | none => specOpIdx rels inner
  | .ifOp _ _ _ inner => specOpIdx rels inner
  | .unpack _ _ inner => specOpIdx rels inner
  | .insert _ _ => .ok []
  | .erase _ _ => .ok []

mutual
/-- Per-loop specification lifted to statements. -/
def specStmtIdx (rels : Catalog) : Stmt → Except String (List SouffleBTreeIndex)
  | .loop body => specStmtsIdx rels body
  | .query op => specOpIdx rels op
  | .debug _ inner => specStmtIdx rels inner
  | .clear _ => .ok []
  | .swap _ _ => .ok []
  | .exitS _ => .ok []
  | .io _ _ => .ok []

def specStmtsIdx (rels : Catalog) : List Stmt → Except String (List SouffleBTreeIndex)
  | [] => .ok []
  | s :: rest =>
    match specStmtIdx rels s with
    | .error e => .error e
    | .ok ds =>
      match specStmtsIdx rels rest with
      | .error e => .error e
      | .ok ds2 => .ok (ds ++ ds2)
end

/-- Per-loop specification lifted to programs. -/
def specProgIdx (rels : Catalog) : List Sub → Except String (List SouffleBTreeIndex)
  | [] => .ok []
  | sub :: rest =>
    match specStmtsIdx rels sub.stmts with
    | .error e => .error e
    | .ok ds =>
      match specProgIdx rels rest with
      | .error e => .error e
      | .ok ds2 => .ok (ds ++ ds2)

end SouffleTools

namespace SouffleTools

/-! ## Renderer A: the pseudo-Python plan renderer (`visitors/plan.py`)

`PyPlanVisitor` threads one mutable dict `_bound_tuples` (tuple variable
name → schema) through the whole traversal and returns, per statement,
either a plain string or a `{"l": lines, "c": children}` dict.  The
`"l"` field is a string or a list of strings in Python; every consumer
(`_stringify_plan`, `_safe_prepend`) treats a string exactly as its
singleton list, so it is normalised to `List String` here.  Raised
exceptions (KeyError on the env dict or catalog, IndexError on schema
lookup, TypeError on a malformed debug inner, RuntimeError on a bad IO
operation) are `Except.error` values. -/

/-- The bound-tuple environment: Python dict from variable names to
schemas. -/
abbrev Env := List (String × Relation)

/-- `PyPlanVisitor.ram_relname`: generation-tag prefix plus the joined
qualified name. -/
def renderRelA (rel : RamRelname) : String :=
  let p := match rel.tag with
    | some .newRel => "__new_"
    | some .delta => "__delta_"
    | some .delete => "__delete_"
    | some .reject => "__reject_"
    | none => ""
  p ++ qjoin rel.qname

/-- `userdef_functor` / builtin functor token for renderer A. -/
def renderFunctorA : RamFunctor → String
  | .builtin n => n
  | .userdef q => "__functor_" ++ qjoin q

mutual
/-- Tuple-element rendering of renderer A.  `tuple_element_ref` resolves a
bound variable against the env schema (IndexError when the column is out
of range) and falls back to a synthetic `_i` record-field label when the
variable is unbound. -/
def renderElemA (env : Env) : TupleElement → Except String String
  | .lit v => .ok v
  | .ref t i =>
    match dictGet env t with
    | some rel =>
      match rel.attrs.get? i with
      | some a => .ok (t ++ "." ++ a.1)
      | none => .error "IndexError"
    | none => .ok (t ++ "._" ++ toString i)
  | .add xs => (renderElemsA env xs).map (String.intercalate " + ")
  | .sub xs => (renderElemsA env xs).map (String.intercalate " - ")
  | .undef => .ok "_"
  | .functorCall f args =>
    (renderElemsA env args).map
      (fun ss => renderFunctorA f ++ "(" ++ String.intercalate "," ss ++ ")")
  | .bracketed e => (renderElemA env e).map (fun s => "(" ++ s ++ ")")
  | .record xs =>
    (renderElemsA env xs).map (fun ss => "[" ++ String.intercalate "," ss ++ "]")

def renderElemsA (env : Env) : List TupleElement → Except String (List String)
  | [] => .ok []
  | e :: es =>
    match renderElemA env e with
    | .error msg => .error msg
    | .ok s => (renderElemsA env es).map (fun ss => s :: ss)
end

/-- Number of child trees of a condition node, as `ram_cond`'s
`is_complex` helper observes it (`len(tree.children) > 0`). -/
def condChildCount : Cond → Nat
  | .orC xs => xs.length
  | .andC xs => xs.length
  | .notC _ => 1
  | .inC _ _ => 2
  | .existsC _ _ => 2
  | .isEmpty _ => 1
  | .compare _ _ _ => 3
  | .bracketedC _ => 1

mutual
/-- Condition rendering of renderer A. -/
def renderCondA (env : Env) : Cond → Except String String
  | .orC xs => (renderCondsA env xs).map (String.intercalate " or ")
  | .andC xs => (renderCondsA env xs).map (String.intercalate " and ")
  | .notC c => (renderCondA env c).map (fun s => "not " ++ s)
  | .inC e rel => (renderElemA env e).map (fun s => s ++ " in " ++ renderRelA rel)
  | .existsC v rel => .ok ("exists(" ++ v ++ " in " ++ renderRelA rel ++ ")")
  | .isEmpty rel => .ok (renderRelA rel ++ " == set()")
  | .compare lhs op rhs =>
    match renderElemA env lhs with
    | .error msg => .error msg
    | .ok ls =>
      let cmp := if op = "=" then "==" else op
      (renderElemA env rhs).map (fun rs => ls ++ " " ++ cmp ++ " " ++ rs)
  | .bracketedC c => (renderCondA env c).map (fun s => "(" ++ s ++ ")")

def renderCondsA (env : Env) : List Cond → Except String (List String)
  | [] => .ok []
  | c :: cs =>
    match renderCondA env c with
    | .error msg => .error msg
    | .ok s => (renderCondsA env cs).map (fun ss => s :: ss)
end

/-- `PyPlanVisitor.ram_cond`: join the condition children with `" and "`,
bracketing each child that has children of its own (`bracket_complex`). -/
def renderRamCondA (env : Env) (rc : RamCond) : Except String String :=
  (renderCondsBracketedA env rc).map (String.intercalate " and ")
where
  renderCondsBracketedA (env : Env) : List Cond → Except String (List String)
    | [] => .ok []
    | c :: cs =>
      match (renderCondA env c).map
        (fun s => if condChildCount c > 0 then "(" ++ s ++ ")" else s) with
      | .error msg => .error msg
      | .ok s => (renderCondsBracketedA env cs).map (fun ss => s :: ss)

/-- Renderer A's per-statement result: a plain string or an
`{"l": lines, "c": children}` plan dict. -/
inductive PlanA where
  | strP (s : String)
  | dict (l : List String) (c : List PlanA)
deriving Repr

/-- Last-wins dict construction over the parsed IO option pairs
(`dict(map(self.visit, tree.children[1:]))`). -/
def ioGet (opts : List (String × String)) (k : String) : Option String :=
  dictGet (opts.foldl (fun d kv => dictSet d kv.1 kv.2) []) k

/-- `PyPlanVisitor.io_stmt`, given the already-rendered relation name. -/
def ioStmtA (relname : String) (opts : List (String × String)) : Except String String :=
  match ioGet opts "operation" with
  | none => .error "KeyError: operation"
  | some opv =>
    if opv = "input" ∨ opv = "output" then
      let fnamePart : Except String String :=
        if removeSuffix ((ioGet opts "filename").getD relname) ".dl" ≠ relname then
          match ioGet opts "filename" with
          | some f => .ok (", filename=" ++ f)
          | none => .error "KeyError: filename"
        else .ok ""
      match fnamePart with
      | .error msg => .error msg
      | .ok fp =>
        let delim := pyReprStr ((ioGet opts "delimiter").getD "\t")
        .ok (opv ++ "(" ++ relname ++ ", delim=" ++ delim ++ fp ++ ")")
    else .error ("RuntimeError: Unrecognized IO operation " ++ opv)

/-- Renderer A over operations, threading the bound-tuple environment.
`forloop` binds the tuple variable by plain dict assignment and removes it
by `del` on exit; `del` raises KeyError when the entry is gone. -/
def visitOpA (rels : Catalog) (env : Env) : Op → Except String (PlanA × Env)
  | .declare target agg t rel inner => do
    let tgt ← renderElemA env target
    let line := tgt ++ " = " ++ agg ++ "(" ++ t ++ " for " ++ t ++ " in "
      ++ renderRelA rel ++ ")"
    let (p, env2) ← visitOpA rels env inner
    .ok (.dict [line] [p], env2)
  | .forloop t rel onIndex inner => do
    let ramRel := renderRelA rel
    let relname := qjoin rel.qname
    match dictGet rels relname with
    | none => .error ("KeyError: " ++ relname)
    | some r =>
      let env1 := dictSet env t r
      let iter ← match onIndex with
        | some rc =>
          (renderRamCondA env1 rc).map
            (fun cs => "index_scan(" ++ ramRel ++ ", lambda " ++ t ++ ": " ++ cs ++ ")")
        | none => pure ramRel
      let (p, env2) ← visitOpA rels env1 inner
      match dictDel env2 t with
      | none => .error ("KeyError: " ++ t)
      | some env3 => .ok (.dict ["for " ++ t ++ " in " ++ iter ++ ":"] [p], env3)
  | .ifOp cond onIndex breaks inner => do
    let c ← renderRamCondA env cond
    let ifc ← match onIndex with
      | some rc =>
        (renderRamCondA env rc).map
          (fun s => "if " ++ c ++ " and index_cond(lambda : " ++ s ++ ")")
      | none => pure ("if " ++ c)
    let (p, env2) ← visitOpA rels env inner
    if breaks then
      match p with
      | .strP s => .ok (.dict [ifc ++ ": break", s] [], env2)
      | .dict l ch => .ok (.dict ((ifc ++ ": break") :: l) ch, env2)
    else
      .ok (.dict [ifc ++ ":"] [p], env2)
  | .unpack iden r inner => do
    let rs ← renderElemA env r
    let (p, env2) ← visitOpA rels env inner
    let text := iden ++ " = " ++ rs
    match p with
    | .strP s => .ok (.dict [text, s] [], env2)
    | .dict l ch => .ok (.dict (text :: l) ch, env2)
  | .insert tup rel => do
    let ts ← renderElemsA env tup
    .ok (.strP (renderRelA rel ++ ".add((" ++ String.intercalate "," ts ++ "))"), env)
  | .erase tup rel => do
    let ts ← renderElemsA env tup
    .ok (.strP (renderRelA rel ++ ".remove((" ++ String.intercalate "," ts ++ "))"), env)

/-- The triple-quote delimiter line of a rendered debug payload. -/
def tripleQuote : String := "\"\"\""

/-- The leading commentary block renderer A derives from a parsed debug
payload: `['\x22\x22\x22'] + x.split("\n") + ['\x22\x22\x22']`. -/
def debugLines (x : String) : List String :=
  [tripleQuote] ++ x.splitOn "\n" ++ [tripleQuote]

/-- Unescape the body of a double-quoted Python string literal. -/
def unescapeChars : List Char → Option (List Char)
  | [] => some []
  | c :: rest =>
    if c = Char.ofNat 92 then
      match rest with
      | [] => none
      | e :: rest2 =>
        let m : Option Char :=
          if e = Char.ofNat 110 then some (Char.ofNat 10)
          else if e = Char.ofNat 116 then some (Char.ofNat 9)
          else if e = Char.ofNat 114 then some (Char.ofNat 13)
          else if e = Char.ofNat 92 then some (Char.ofNat 92)
          else if e = Char.ofNat 34 then some (Char.ofNat 34)
          else none
        match m with
        | some c2 => (unescapeChars rest2).map (fun cs => c2 :: cs)
        | none => none
    else if c = Char.ofNat 34 then none
    else (unescapeChars rest).map (fun cs => c :: cs)

/-- Models `exec(f"x = {payload}")` followed by `x.split` on the debug
payloads the compiler emits: a double-quoted Python string literal
evaluates to its unescaped contents; any other payload (a non-string
literal, on which `.split` would fail, or text that is not one string
literal) yields `none`, modelling the raised exception. -/
def pyEvalStrLit (s : String) : Option String :=
  match s.data with
  | [] => none
  | c :: rest =>
    if c = Char.ofNat 34 ∧ rest ≠ [] ∧ rest.getLast? = some (Char.ofNat 34) then
      (unescapeChars rest.dropLast).map (fun cs => String.mk cs)
    else none

mutual
/-- Renderer A over statements, threading the environment. -/
def visitStmtA (rels : Catalog) (env : Env) : Stmt → Except String (PlanA × Env)
  | .loop body => do
    let (ps, env2) ← visitStmtsA rels env body
    .ok (.dict ["while True:"] ps, env2)
  | .query op => visitOpA rels env op
  | .debug info inner =>
    match pyEvalStrLit info with
    | none => .error "DebugPayloadError"
    | some x => do
      let (p, env2) ← visitStmtA rels env inner
      match p with
      | .dict l c => .ok (.dict (debugLines x ++ l) c, env2)
      | .strP _ => .error "TypeError"
  | .clear rel => .ok (.strP (renderRelA rel ++ " = set()"), env)
  | .swap r1 r2 =>
    .ok (.strP ("swap(" ++ renderRelA r1 ++ ", " ++ renderRelA r2 ++ ")"), env)
  | .exitS cond => do
    let c ← renderRamCondA env cond
    .ok (.strP ("if " ++ c ++ ": break"), env)
  | .io rel opts => do
    let line ← ioStmtA (renderRelA rel) opts
    .ok (.strP line, env)

def visitStmtsA (rels : Catalog) (env : Env) :
    List Stmt → Except String (List PlanA × Env)
  | [] => .ok ([], env)
  | s :: rest => do
    let (p, env1) ← visitStmtA rels env s
    let (ps, env2) ← visitStmtsA rels env1 rest
    .ok (p :: ps, env2)
end

/-- Renderer A over one subroutine: `def name():` heading over the
statement children. -/
def visitSubA (rels : Catalog) (env : Env) (sub : Sub) : Except String (PlanA × Env) := do
  let (ps, env2) ← visitStmtsA rels env sub.stmts
  .ok (.dict ["def " ++ sub.name ++ "():"] ps, env2)

/-- Renderer A over a list of subroutines, in order, threading the
environment. -/
def visitSubsA (rels : Catalog) (env : Env) :
    List Sub → Except String (List PlanA × Env)
  | [] => .ok ([], env)
  | sub :: rest => do
    let (p, env1) ← visitSubA rels env sub
    let (ps, env2) ← visitSubsA rels env1 rest
    .ok (p :: ps, env2)

mutual
/-- `PyPlanVisitor._stringify_plan` on a plan dict: the `"l"` lines at the
current indentation, then the stringified children. -/
def stringifyDict (pre : String) (l : List String) (c : List PlanA) : String :=
  String.intercalate "\n" (l.map (fun s => pre ++ s)) ++ "\n"
    ++ String.intercalate "\n" (stringifyChildren pre c)

def stringifyChildren (pre : String) : List PlanA → List String
  | [] => []
  | p :: ps => stringifyChild pre p :: stringifyChildren pre ps

/-- The local `stringify` helper: a string child gets one extra indent
group, a dict child recurses with a deeper prefix. -/
def stringifyChild (pre : String) : PlanA → String
  | .strP s => "   " ++ pre ++ s
  | .dict l c => stringifyDict ("   " ++ pre) l c
end

/-- `sorted(tree.children[1:-1], key=extract_stratum_number)` of renderer
A's `program`: `none` models the exception raised when a subroutine name
does not embed a stratum number. -/
def sortSubs (prog : List Sub) : Option (List Sub) :=
  if prog.all (fun s => (extractStratum s.name).isSome) then
    some (sortStable (fun s => (extractStratum s.name).getD 0) prog)
  else none

/-- `_stringify_plan` over the top-level subroutine plans (always dicts;
`plan["l"]` on a string would raise TypeError). -/
def stringifyTops : List PlanA → Except String (List String)
  | [] => .ok []
  | .strP _ :: _ => .error "TypeError"
  | .dict l c :: ps => (stringifyTops ps).map (fun ss => stringifyDict "" l c :: ss)

/-- The post-sort stage of renderer A's `program`: visit the already
sorted subroutines in order, stringify each, and join with newlines. -/
def renderSortedA (rels : Catalog) (sorted : List Sub) : Except String String :=
  match visitSubsA rels [] sorted with
  | .error e => .error e
  | .ok (ps, _) =>
    match stringifyTops ps with
    | .error e => .error e
    | .ok ss => .ok (String.intercalate "\n" ss)

/-- Renderer A over a whole program: sort the subroutines by the stratum
number embedded in their names, then render in that order. -/
def renderProgramA (rels : Catalog) (prog : List Sub) : Except String String :=
  match sortSubs prog with
  | none => .error "StratumNameError"
  | some sorted => renderSortedA rels sorted

end SouffleTools

namespace SouffleTools

/-! ## Renderer B: the logic-notation renderer (`visitors/ram_plan.py`)

`TextualPlanVisitor` builds `PlanNode` dataclasses; a query's node is
grown bottom-up through the mutable `self._plan` (modelled as the `acc`
children list threaded through the operation chain).  An operation node
kind with no visitor method — `erase_stmt` has none — falls through to the
default `Interpreter` handler, which returns the raw list of visited
children; that value is modelled as `junk`, and `PlanNode.__str__`
over a children list containing it raises TypeError. -/

/-- A `PlanNode` (text, children, never-rendered `debug_info`, seperator,
trailer), or the non-`PlanNode` value the default handler returns. -/
inductive BDoc where
  | node (text : String) (children : List BDoc) (debugInfo : Option String)
      (sep : String) (trailer : Option String)
  | junk
deriving Repr

/-- A leaf `PlanNode` with the dataclass defaults. -/
def leafNode (text : String) : BDoc := .node text [] none "" none

mutual
/-- `PlanNode.__str__`: the node's text, then the children rendered with a
three-space-deeper prefix, stripped of one trailing newline and joined by
`seperator` plus newline, then the trailer line.  `debug_info` is not
read.  A non-`PlanNode` child raises TypeError. -/
def planStr (pre : String) : BDoc → Except String String
  | .junk => .error "TypeError"
  | .node text children _ sep trailer =>
    match planStrList (pre ++ "   ") children with
    | .error e => .error e
    | .ok strs =>
      .ok (pre ++ text ++ "\n"
        ++ String.intercalate (sep ++ "\n") (strs.map (fun s => removeSuffix s "\n"))
        ++ (match trailer with
            | some tr => "\n" ++ pre ++ tr
            | none => ""))

def planStrList (pre : String) : List BDoc → Except String (List String)
  | [] => .ok []
  | d :: ds =>
    match planStr pre d with
    | .error e => .error e
    | .ok s => (planStrList pre ds).map (fun ss => s :: ss)
end

/-- `TextualPlanVisitor.ram_relname`: only the `@new_` and `@delta_` tags
render (as generation-index notation); other tags render no prefix. -/
def renderRelB (rel : RamRelname) : String :=
  let p := match rel.tag with
    | some .newRel => "Δ[i+1]"
    | some .delta => "Δ[i]"
    | _ => ""
  p ++ qjoin rel.qname

/-- `userdef_functor` / builtin functor token for renderer B. -/
def renderFunctorB : RamFunctor → String
  | .builtin n => n
  | .userdef q => "@" ++ qjoin q

mutual
/-- Tuple-element rendering of renderer B.  The unbound-variable fallback
keeps the raw column number as the field label (no underscore). -/
def renderElemB (env : Env) : TupleElement → Except String String
  | .lit v => .ok v
  | .ref t i =>
    match dictGet env t with
    | some rel =>
      match rel.attrs.get? i with
      | some a => .ok (t ++ "." ++ a.1)
      | none => .error "IndexError"
    | none => .ok (t ++ "." ++ toString i)
  | .add xs => (renderElemsB env xs).map (String.intercalate " + ")
  | .sub xs => (renderElemsB env xs).map (String.intercalate " - ")
  | .undef => .ok "UNDEFINED"
  | .functorCall f args =>
    (renderElemsB env args).map
      (fun ss => renderFunctorB f ++ "(" ++ String.intercalate "," ss ++ ")")
  | .bracketed e => (renderElemB env e).map (fun s => "(" ++ s ++ ")")
  | .record xs =>
    (renderElemsB env xs).map (fun ss => "[" ++ String.intercalate "," ss ++ "]")

def renderElemsB (env : Env) : List TupleElement → Except String (List String)
  | [] => .ok []
  | e :: es =>
    match renderElemB env e with
    | .error msg => .error msg
    | .ok s => (renderElemsB env es).map (fun ss => s :: ss)
end

mutual
/-- Condition rendering of renderer B. -/
def renderCondB (env : Env) : Cond → Except String String
  | .orC xs => (renderCondsB env xs).map (String.intercalate "; ")
  | .andC xs => (renderCondsB env xs).map (String.intercalate ", ")
  | .notC c => (renderCondB env c).map (fun s => "!" ++ s)
  | .inC e rel => (renderElemB env e).map (fun s => s ++ " ∈ " ++ renderRelB rel)
  | .existsC v rel => .ok ("∃" ++ v ++ " ∈ " ++ renderRelB rel)
  | .isEmpty rel => .ok (renderRelB rel ++ " = ∅")
  | .compare lhs op rhs =>
    match renderElemB env lhs with
    | .error msg => .error msg
    | .ok ls => (renderElemB env rhs).map (fun rs => ls ++ " " ++ op ++ " " ++ rs)
  | .bracketedC c => (renderCondB env c).map (fun s => "(" ++ s ++ ")")

def renderCondsB (env : Env) : List Cond → Except String (List String)
  | [] => .ok []
  | c :: cs =>
    match renderCondB env c with
    | .error msg => .error msg
    | .ok s => (renderCondsB env cs).map (fun ss => s :: ss)
end

/-- `TextualPlanVisitor.ram_cond`: comma-join with `bracket_complex`. -/
def renderRamCondB (env : Env) (rc : RamCond) : Except String String :=
  (renderCondsBracketedB env rc).map (String.intercalate ", ")
where
  renderCondsBracketedB (env : Env) : List Cond → Except String (List String)
    | [] => .ok []
    | c :: cs =>
      match (renderCondB env c).map
        (fun s => if condChildCount c > 0 then "(" ++ s ++ ")" else s) with
      | .error msg => .error msg
      | .ok s => (renderCondsBracketedB env cs).map (fun ss => s :: ss)

/-- `TextualPlanVisitor.io_stmt`, given the already-rendered relation
name: same filename/delimiter logic as renderer A, different tokens. -/
def ioStmtB (relname : String) (opts : List (String × String)) : Except String String :=
  match ioGet opts "operation" with
  | none => .error "KeyError: operation"
  | some opv =>
    let operationTok : Except String String :=
      if opv = "input" then .ok "INPUT FROM"
      else if opv = "output" then .ok "OUTPUT TO"
      else .error ("RuntimeError: Unrecognized IO operation " ++ opv)
    match operationTok with
    | .error msg => .error msg
    | .ok operation =>
      let fnamePart : Except String String :=
        if removeSuffix ((ioGet opts "filename").getD relname) ".dl" ≠ relname then
          match ioGet opts "filename" with
          | some f => .ok (" fname " ++ f)
          | none => .error "KeyError: filename"
        else .ok ""
      match fnamePart with
      | .error msg => .error msg
      | .ok fp =>
        let delim := pyReprStr ((ioGet opts "delimiter").getD "\t")
        .ok (operation ++ " " ++ relname ++ " delim " ++ delim ++ fp)

/-- Renderer B over operations: `acc` is the children list of the mutable
`self._plan` node the chain grows; a terminal `insert_stmt` turns it into
the finished query node; a terminal erase operation has no visitor method
and falls back to the default handler (a raw child list, `junk`). -/
def visitOpB (rels : Catalog) (acc : List BDoc) (env : Env) : Op → Except String (BDoc × Env)
  | .declare target agg t rel inner => do
    let tgt ← renderElemB env target
    let line := tgt ++ " = " ++ agg ++ "\x7b" ++ t ++ " ∈ " ++ renderRelB rel ++ "\x7d"
    visitOpB rels (acc ++ [leafNode line]) env inner
  | .forloop t rel onIndex inner => do
    let ramRel := renderRelB rel
    let relname := qjoin rel.qname
    match dictGet rels relname with
    | none => .error ("KeyError: " ++ relname)
    | some r =>
      let env1 := dictSet env t r
      let c ← match onIndex with
        | some rc => (renderRamCondB env1 rc).map (fun s => " if " ++ s)
        | none => pure ""
      let (p, env2) ← visitOpB rels (acc ++ [leafNode ("for " ++ t ++ " ∈ " ++ ramRel ++ c)]) env1 inner
      match dictDel env2 t with
      | none => .error ("KeyError: " ++ t)
      | some env3 => .ok (p, env3)
  | .ifOp cond onIndex breaks inner =>
    if breaks then
      visitOpB rels acc env inner
    else do
      let c ← renderRamCondB env cond
      let idx ← match onIndex with
        | some rc => (renderRamCondB env rc).map (fun s => " using index " ++ s)
        | none => pure ""
      visitOpB rels (acc ++ [leafNode ("if " ++ c ++ idx)]) env inner
  | .unpack iden r inner => do
    let rs ← renderElemB env r
    visitOpB rels (acc ++ [leafNode (iden ++ " := " ++ rs)]) env inner
  | .insert tup rel => do
    let ts ← renderElemsB env tup
    let rl := renderRelB rel
    let text := rl ++ " = " ++ rl ++ " ∪ \x7b〈" ++ String.intercalate "," ts ++ "〉 | "
    .ok (.node text acc none "" (some "\x7d"), env)
  | .erase tup _ => do
    let _ ← renderElemsB env tup
    .ok (.junk, env)

mutual
/-- Renderer B over statements, threading the environment. -/
def visitStmtB (rels : Catalog) (env : Env) : Stmt → Except String (BDoc × Env)
  | .loop body => do
    let (cs, env2) ← visitStmtsB rels env body
    .ok (.node "FOR i ∈ ℕ" cs none "" none, env2)
  | .query op => visitOpB rels [] env op
  | .debug info inner => do
    let (p, env2) ← visitStmtB rels env inner
    match p with
    | .node t c _ sep tr => .ok (.node t c (some info) sep tr, env2)
    | .junk => .error "AttributeError"
  | .clear rel => .ok (leafNode (renderRelB rel ++ " = ∅"), env)
  | .swap r1 r2 =>
    let a := renderRelB r1
    let b := renderRelB r2
    .ok (leafNode (a ++ ", " ++ b ++ " = " ++ b ++ ", " ++ a), env)
  | .exitS cond => do
    let c ← renderRamCondB env cond
    .ok (leafNode ("BREAK " ++ c), env)
  | .io rel opts => do
    let line ← ioStmtB (renderRelB rel) opts
    .ok (leafNode line, env)

def visitStmtsB (rels : Catalog) (env : Env) :
    List Stmt → Except String (List BDoc × Env)
  | [] => .ok ([], env)
  | s :: rest => do
    let (p, env1) ← visitStmtB rels env s
    let (ps, env2) ← visitStmtsB rels env1 rest
    .ok (p :: ps, env2)
end

/-- Renderer B over one subroutine: a node whose text is the subroutine
name, children are the statement results, seperator is `";"`. -/
def visitSubB (rels : Catalog) (env : Env) (sub : Sub) : Except String (BDoc × Env) := do
  let (cs, env2) ← visitStmtsB rels env sub.stmts
  .ok (.node sub.name cs none ";" none, env2)

/-- Renderer B over a list of subroutines, in parse order, threading the
environment. -/
def visitSubsB (rels : Catalog) (env : Env) :
    List Sub → Except String (List BDoc × Env)
  | [] => .ok ([], env)
  | sub :: rest => do
    let (p, env1) ← visitSubB rels env sub
    let (ps, env2) ← visitSubsB rels env1 rest
    .ok (p :: ps, env2)

/-- Stratum key of a rendered subroutine node
(`int(stratum_plan_node.text.split("_")[1])`). -/
def bKey : BDoc → Option Nat
  | .node t _ _ _ _ => extractStratum t
  | .junk => none

/-- Renderer B over a whole program: visit the subroutines in parse order,
sort the resulting nodes by the stratum number embedded in their text,
wrap them in a `PROGRAM` root and stringify it. -/
def renderProgramB (rels : Catalog) (prog : List Sub) : Except String String :=
  match visitSubsB rels [] prog with
  | .error e => .error e
  | .ok (nodes, _) =>
    if nodes.all (fun d => (bKey d).isSome) then
      planStr "" (.node "PROGRAM" (sortStable (fun d => (bKey d).getD 0) nodes) none "" none)
    else .error "StratumNameError"

/-! ### Debug-stripping and scrubbing helpers (for the Debug-wrapping
analysis) -/

mutual
/-- Remove every `Debug` wrapper from a statement tree. -/
def stripDebugStmt : Stmt → Stmt
  | .loop body => .loop (stripDebugStmts body)
  | .query op => .query op
  | .debug _ inner => stripDebugStmt inner
  | .clear rel => .clear rel
  | .swap r1 r2 => .swap r1 r2
  | .exitS cond => .exitS cond
  | .io rel opts => .io rel opts

def stripDebugStmts : List Stmt → List Stmt
  | [] => []
  | s :: rest => stripDebugStmt s :: stripDebugStmts rest
end

mutual
/-- Clear every `debug_info` field in a rendered `PlanNode` tree. -/
def scrubB : BDoc → BDoc
  | .node t c _ sep tr => .node t (scrubBs c) none sep tr
  | .junk => .junk

def scrubBs : List BDoc → List BDoc
  | [] => []
  | d :: ds => scrubB d :: scrubBs ds
end

end SouffleTools

namespace SouffleTools

/-! ## Specification-side IO line shapes

These two definitions follow the spec's words for the `Io` rendering
("`filename` is omitted from the rendering unless present and, after
stripping a known source-file suffix, different from the relation's own
name; `delimiter` defaults to a tab character when absent"), to be
compared against the renderers' `io_stmt` translations. -/

/-- Claimed `Io` line of renderer A: operation call with the relation, the
delimiter (the option's value, defaulting to a tab), and the filename only
when present and different from the relation name after stripping the
`.dl` suffix. -/
def specIoLineA (relname : String) (opts : List (String × String)) : String :=
  let fp := match ioGet opts "filename" with
    | some f => if removeSuffix f ".dl" ≠ relname then ", filename=" ++ f else ""
    | none => ""
  let delim := pyReprStr ((ioGet opts "delimiter").getD "\t")
  (ioGet opts "operation").getD "" ++ "(" ++ relname ++ ", delim=" ++ delim ++ fp ++ ")"

/-- Claimed `Io` line of renderer B: same option discipline, logic-notation
tokens. -/
def specIoLineB (relname : String) (opts : List (String × String)) : String :=
  let operation := if (ioGet opts "operation").getD "" = "input" then "INPUT FROM" else "OUTPUT TO"
  let fp := match ioGet opts "filename" with
    | some f => if removeSuffix f ".dl" ≠ relname then " fname " ++ f else ""
    | none => ""
  let delim := pyReprStr ((ioGet opts "delimiter").getD "\t")
  operation ++ " " ++ relname ++ " delim " ++ delim ++ fp

/-- Text of a rendered subroutine node (`junk` carries none). -/
def bText : BDoc → String
  | .node t _ _ _ _ => t
  | .junk => ""

/-- Does some `ForLoop` carrying an on-index condition scan a relation
absent from the catalog? -/
def hasUnresolvedScanOp (rels : Catalog) : Op → Bool
  | .declare _ _ _ _ inner => hasUnresolvedScanOp rels inner
  | .forloop _ rel onIndex inner =>
    (onIndex.isSome && (dictGet rels (qjoin rel.qname)).isNone)
      || hasUnresolvedScanOp rels inner
  | .ifOp _ _ _ inner => hasUnresolvedScanOp rels inner
  | .unpack _ _ inner => hasUnresolvedScanOp rels inner
  | .insert _ _ => false
  | .erase _ _ => false

mutual
/-- `hasUnresolvedScanOp` lifted to statements. -/
def hasUnresolvedScanStmt (rels : Catalog) : Stmt → Bool
  | .loop body => hasUnresolvedScanStmts rels body
  | .query op => hasUnresolvedScanOp rels op
  | .debug _ inner => hasUnresolvedScanStmt rels inner
  | .clear _ => false
  | .swap _ _ => false
  | .exitS _ => false
  | .io _ _ => false

def hasUnresolvedScanStmts (rels : Catalog) : List Stmt → Bool
  | [] => false
  | s :: rest => hasUnresolvedScanStmt rels s || hasUnresolvedScanStmts rels rest
end

/-- `hasUnresolvedScanOp` lifted to programs. -/
def hasUnresolvedScanProg (rels : Catalog) : List Sub → Bool
  | [] => false
  | sub :: rest => hasUnresolvedScanStmts rels sub.stmts || hasUnresolvedScanProg rels rest

/-! ## Concrete inputs used by the closed theorems -/

/-- Schema `R(x:number)`. -/
def relRx : Relation := ⟨"R", [("x", "number")]⟩

/-- Schema `S(y:number)`. -/
def relSy : Relation := ⟨"S", [("y", "number")]⟩

/-- Catalog holding `R(x:number)` and `S(y:number)`. -/
def cat2 : Catalog := [("R", relRx), ("S", relSy)]

/-- Untagged reference to relation `R`. -/
def rrR : RamRelname := ⟨none, ["R"]⟩

/-- Untagged reference to relation `S`. -/
def rrS : RamRelname := ⟨none, ["S"]⟩

/-- Untagged reference to a relation `T` kept out of `cat2`. -/
def rrT : RamRelname := ⟨none, ["T"]⟩

/-- A `ForLoop` binding `t` to `R` whose body is a `ForLoop` binding `t`
again, to `S`, around an insert referencing `Ref(t, 0)`. -/
def shadowTree : Stmt :=
  .query (.forloop "t" rrR none (.forloop "t" rrS none (.insert [.ref "t" 0] rrR)))

/-- The same shape without shadowing: the inner loop binds `u`. -/
def controlTree : Stmt :=
  .query (.forloop "t" rrR none
    (.forloop "u" rrS none (.insert [.ref "u" 0, .ref "t" 0] rrR)))

/-- A query scanning `R` and erasing `⟨Ref(t,0)⟩` from it. -/
def eraseTree : Stmt := .query (.forloop "t" rrR none (.erase [.ref "t" 0] rrR))

/-- A query scanning `R` and inserting `⟨Ref(t,0)⟩` into it. -/
def insertTree : Stmt := .query (.forloop "t" rrR none (.insert [.ref "t" 0] rrR))

/-- Catalog holding only `R(a:number, b:symbol, c:number)`. -/
def cat3 : Catalog := [("R", ⟨"R", [("a", "number"), ("b", "symbol"), ("c", "number")]⟩)]

/-- An on-index condition referencing `Ref(t,2)` before `Ref(t,0)`. -/
def cond20 : RamCond :=
  [.compare (.ref "t" 2) "=" (.lit "1"), .compare (.ref "t" 0) "=" (.lit "2")]

/-- A one-query program scanning `R` on index with a given bound variable
and condition. -/
def idxProg (t : String) (c : RamCond) : List Sub :=
  [⟨"stratum_0_x", [.query (.forloop t rrR (some c) (.insert [.undef] rrR))]⟩]

/-- A program whose only indexed scan is over the uncatalogued `T`. -/
def idxProgBad : List Sub :=
  [⟨"stratum_0_x",
    [.query (.forloop "t" rrT (some [.compare (.ref "t" 0) "=" (.lit "1")])
      (.insert [.undef] rrT))]⟩]

/-- Three subroutines with strata 2, 1, 2 in parse order (empty bodies). -/
def strataProg : List Sub :=
  [⟨"stratum_2_a", []⟩, ⟨"stratum_1_b", []⟩, ⟨"stratum_2_c", []⟩]

/-- The stable stratum-sorted order of `strataProg`. -/
def strataSorted : List Sub :=
  [⟨"stratum_1_b", []⟩, ⟨"stratum_2_a", []⟩, ⟨"stratum_2_c", []⟩]

/-- The subroutine nodes renderer B builds for `strataProg` (parse order). -/
def strataNodes : List BDoc :=
  [.node "stratum_2_a" [] none ";" none, .node "stratum_1_b" [] none ";" none,
   .node "stratum_2_c" [] none ";" none]

end SouffleTools

namespace SouffleTools

/-- C1: the claim says every non-zero exit of the IR-acquisition or
transformed-source-acquisition subprocess raises a fatal compiler
invocation error carrying the file name and exit code, and a zero exit
raises none.  The IR-acquisition check (`parsers/ram.py`) behaves exactly
so, but the transformed-source check (`parsers/souffle.py`) compares the
`close()` result with `== 0`, a condition that is never true — `close()`
returns `None` on success and the nonzero code on failure — so that step
never raises, for any exit code; the preprocessing path has the same
inverted check. -/
theorem C1_exit_code_checks :
    ramAcquireError "f.dl" 2
      = some "Souffle process failed on source file f.dl: exit code 2"
    ∧ (∀ e : Nat, (ramAcquireError "f.dl" e).isSome = decide (e ≠ 0))
    ∧ souffleTransformedAcquireError "f.dl" 2 = none
    ∧ (∀ e : Nat, souffleTransformedAcquireError "f.dl" e = none)
    ∧ (∀ e : Nat, cppAcquireError "f.dl" e = none) := by
  refine ⟨by decide, fun e => ?_, by decide, fun e => ?_, fun e => ?_⟩ <;>
    by_cases h : e = 0 <;>
      simp [ramAcquireError, souffleTransformedAcquireError, cppAcquireError,
        popenClose, pyTruthy, pyEqZero, h]

/-- C2: the claim says a `ForLoop` binding `t` nested inside another
`ForLoop` binding `t` resolves inner refs against the inner schema and,
after the inner subtree is visited, resolves later refs against the outer
schema again.  Both renderers instead share one flat dict: the inner loop's
exit `del` removes the binding outright, and the outer loop's own exit
`del` then raises `KeyError("t")`, so no document is produced at all for
such a tree.  The control tree (inner variable renamed to `u`) shows both
bindings resolving and the traversal restoring an empty environment. -/
theorem C2_shadowing_crashes :
    visitStmtA cat2 [] shadowTree = .error "KeyError: t"
    ∧ visitStmtB cat2 [] shadowTree = .error "KeyError: t"
    ∧ visitStmtA cat2 [] controlTree
        = .ok (.dict ["for t in R:"]
            [.dict ["for u in S:"] [.strP "R.add((u.y,t.x))"]], []) := by
  refine ⟨rfl, rfl, rfl⟩

/-- C9: the claim says terminal `Insert` and `Erase` render as the
corresponding mutation in both renderers (renderer A: `.add`/`.remove`
calls; renderer B: set-builder union/difference).  Renderer A does both,
and renderer B renders `Insert` as a set-builder union; but renderer B has
no `erase_stmt` method at all, so an erase query falls through to the
default handler, producing a non-`PlanNode` value on which the document's
`__str__` raises TypeError — no set-difference line is ever emitted. -/
theorem C9_insert_erase_rendering :
    visitStmtA cat2 [] insertTree
        = .ok (.dict ["for t in R:"] [.strP "R.add((t.x))"], [])
    ∧ visitStmtA cat2 [] eraseTree
        = .ok (.dict ["for t in R:"] [.strP "R.remove((t.x))"], [])
    ∧ renderProgramB cat2 [⟨"stratum_0_x", [insertTree]⟩]
        = .ok "PROGRAM\n   stratum_0_x\n      R = R ∪ \x7b〈t.x〉 | \n         for t ∈ R\n      \x7d"
    ∧ visitStmtB cat2 [] eraseTree = .ok (.junk, [])
    ∧ renderProgramB cat2 [⟨"stratum_0_x", [eraseTree]⟩] = .error "TypeError" := by
  refine ⟨rfl, rfl, rfl, rfl, rfl⟩

end SouffleTools

namespace SouffleTools

theorem mem_insertLe {α : Type} (key : α → Nat) (x a : α) (l : List α) :
    a ∈ insertLe key x l ↔ a = x ∨ a ∈ l := by
  induction l with
  | nil => simp [insertLe]
  | cons y ys ih =>
    simp only [insertLe]
    split
    · simp [List.mem_cons]
    · simp only [List.mem_cons, ih]
      tauto

theorem insertLe_pairwise {α : Type} (key : α → Nat) (x : α) (l : List α)
    (h : l.Pairwise (fun a b => key a ≤ key b)) :
    (insertLe key x l).Pairwise (fun a b => key a ≤ key b) := by
  induction l with
  | nil => simp [insertLe]
  | cons y ys ih =>
    rcases List.pairwise_cons.mp h with ⟨hy, hys⟩
    simp only [insertLe]
    split
    · rename_i hxy
      refine List.pairwise_cons.mpr ⟨?_, h⟩
      intro b hb
      rcases List.mem_cons.mp hb with rfl | hb
      · exact hxy
      · exact le_trans hxy (hy b hb)
    · rename_i hxy
      refine List.pairwise_cons.mpr ⟨?_, ih hys⟩
      intro b hb
      rcases (mem_insertLe key x b ys).mp hb with rfl | hb
      · omega
      · exact hy b hb

theorem sortStable_pairwise {α : Type} (key : α → Nat) (l : List α) :
    (sortStable key l).Pairwise (fun a b => key a ≤ key b) := by
  induction l with
  | nil => simp [sortStable]
  | cons x xs ih => exact insertLe_pairwise key x _ ih

theorem insertLe_perm {α : Type} (key : α → Nat) (x : α) (l : List α) :
    (insertLe key x l).Perm (x :: l) := by
  induction l with
  | nil => simp [insertLe]
  | cons y ys ih =>
    simp only [insertLe]
    split
    · exact List.Perm.refl _
    · exact ((ih.cons y).trans (List.Perm.swap x y ys))

theorem sortStable_perm {α : Type} (key : α → Nat) (l : List α) :
    (sortStable key l).Perm l := by
  induction l with
  | nil => simp [sortStable]
  | cons x xs ih => exact (insertLe_perm key x _).trans (ih.cons x)

theorem filter_insertLe {α : Type} (key : α → Nat) (n : Nat) (x : α) (l : List α) :
    (insertLe key x l).filter (fun a => key a = n)
      = if key x = n then x :: l.filter (fun a => key a = n)
        else l.filter (fun a => key a = n) := by
  induction l with
  | nil => by_cases h : key x = n <;> simp [insertLe, h]
  | cons y ys ih =>
    simp only [insertLe]
    split
    · rename_i hxy
      by_cases h : key x = n <;> simp [List.filter_cons, h]
    · rename_i hxy
      rw [List.filter_cons, List.filter_cons]
      by_cases hy : key y = n
      · by_cases h : key x = n
        · omega
        · simp [hy, ih, h]
      · by_cases h : key x = n <;> simp [hy, ih, h]

theorem filter_sortStable {α : Type} (key : α → Nat) (n : Nat) (l : List α) :
    (sortStable key l).filter (fun a => key a = n) = l.filter (fun a => key a = n) := by
  induction l with
  | nil => simp [sortStable]
  | cons x xs ih =>
    simp only [sortStable]
    rw [filter_insertLe, List.filter_cons, ih]
    by_cases h : key x = n <;> simp [h]

theorem forall2_insertLe {α β : Type} {R : α → β → Prop}
    (keyA : α → Nat) (keyB : β → Nat)
    (hkey : ∀ a b, R a b → keyA a = keyB b)
    {x : α} {y : β} {l : List α} {l2 : List β}
    (hxy : R x y) (h : List.Forall₂ R l l2) :
    List.Forall₂ R (insertLe keyA x l) (insertLe keyB y l2) := by
  induction h with
  | nil => simpa [insertLe] using List.Forall₂.cons hxy List.Forall₂.nil
  | cons hab hrest ih =>
    simp only [insertLe]
    rw [hkey _ _ hxy, hkey _ _ hab]
    split
    · exact .cons hxy (.cons hab hrest)
    · exact .cons hab ih

theorem forall2_sortStable {α β : Type} {R : α → β → Prop}
    (keyA : α → Nat) (keyB : β → Nat)
    (hkey : ∀ a b, R a b → keyA a = keyB b)
    {l : List α} {l2 : List β} (h : List.Forall₂ R l l2) :
    List.Forall₂ R (sortStable keyA l) (sortStable keyB l2) := by
  induction h with
  | nil => exact List.Forall₂.nil
  | cons hab hrest ih =>
    exact forall2_insertLe keyA keyB hkey hab ih

theorem map_eq_of_forall2 {α β γ : Type} {R : α → β → Prop}
    (f : α → γ) (g : β → γ) (hfg : ∀ a b, R a b → f a = g b)
    {l : List α} {l2 : List β} (h : List.Forall₂ R l l2) :
    l.map f = l2.map g := by
  induction h with
  | nil => rfl
  | cons hab hrest ih => simp [List.map_cons, hfg _ _ hab, ih]

theorem visitSubsB_shape (rels : Catalog) (subs : List Sub) :
    ∀ env nodes env2, visitSubsB rels env subs = .ok (nodes, env2) →
      List.Forall₂
        (fun (d : BDoc) (s : Sub) => bText d = s.name ∧ bKey d = extractStratum s.name)
        nodes subs := by
  induction subs with
  | nil =>
    intro env nodes env2 h
    simp only [visitSubsB] at h
    cases h
    exact List.Forall₂.nil
  | cons sub rest ih =>
    intro env nodes env2 h
    simp only [visitSubsB, visitSubB, bind, Except.bind] at h
    cases h1 : visitStmtsB rels env sub.stmts with
    | error e => rw [h1] at h; cases h
    | ok pe =>
      rw [h1] at h
      cases h2 : visitSubsB rels pe.2 rest with
      | error e => simp [h2] at h
      | ok pe2 =>
        simp only [h2] at h
        cases h
        exact List.Forall₂.cons ⟨rfl, rfl⟩ (ih _ _ _ h2)

end SouffleTools

namespace SouffleTools

/-- C3: for every program whose subroutine names embed a stratum number as
the second underscore-delimited segment, both renderers order subroutines
non-decreasingly in that number regardless of declaration order, ties
broken by parse order.  Renderer A sorts the subroutine trees before
visiting (`renderProgramA` renders exactly the `sortSubs` order); renderer
B visits in parse order and sorts the resulting nodes by the same key,
yielding the same name sequence. -/
theorem C3_subroutine_order (prog out : List Sub) (h : sortSubs prog = some out) :
    List.Pairwise
      (fun a b => (extractStratum a.name).getD 0 ≤ (extractStratum b.name).getD 0) out
    ∧ (∀ n : Nat, out.filter (fun s => extractStratum s.name = some n)
        = prog.filter (fun s => extractStratum s.name = some n))
    ∧ (∀ rels, renderProgramA rels prog = renderSortedA rels out)
    ∧ (∀ rels nodes env2, visitSubsB rels [] prog = .ok (nodes, env2) →
        (sortStable (fun d => (bKey d).getD 0) nodes).map bText = out.map Sub.name) := by
  have hall : prog.all (fun s => (extractStratum s.name).isSome) = true := by
    by_contra hc
    simp only [sortSubs] at h
    rw [if_neg hc] at h
    cases h
  have hout : out = sortStable (fun s => (extractStratum s.name).getD 0) prog := by
    simp only [sortSubs] at h
    rw [if_pos hall] at h
    cases h
    rfl
  have hmemall : ∀ s ∈ prog, (extractStratum s.name).isSome = true :=
    List.all_eq_true.mp hall
  refine ⟨?_, ?_, ?_, ?_⟩
  · rw [hout]; exact sortStable_pairwise _ _
  · intro n
    have hc : ∀ s ∈ prog,
        (decide (extractStratum s.name = some n))
          = (decide ((extractStratum s.name).getD 0 = n)) := by
      intro s hs
      rcases Option.isSome_iff_exists.mp (hmemall s hs) with ⟨k, hk⟩
      simp [hk]
    have hcs : ∀ s ∈ out,
        (decide (extractStratum s.name = some n))
          = (decide ((extractStratum s.name).getD 0 = n)) := by
      intro s hs
      refine hc s ?_
      rw [hout] at hs
      exact (sortStable_perm _ prog).mem_iff.mp hs
    rw [List.filter_congr hcs, List.filter_congr hc, hout, filter_sortStable]
  · intro rels
    simp [renderProgramA, h]
  · intro rels nodes env2 hB
    have hf := visitSubsB_shape rels prog [] nodes env2 hB
    have hkey : ∀ (d : BDoc) (s : Sub),
        (bText d = s.name ∧ bKey d = extractStratum s.name) →
          (fun d => (bKey d).getD 0) d = (fun s => (extractStratum s.name).getD 0) s := by
      intro d s hds
      simp [hds.2]
    have hsorted := forall2_sortStable _ _ hkey hf
    rw [hout]
    exact map_eq_of_forall2 bText Sub.name (fun d s hds => hds.1) hsorted

/-- Witness for the stratum-ordering theorem at a concrete program with
strata 2, 1, 2 in parse order. -/
theorem C3_subroutine_order_witness :
    sortSubs strataProg = some strataSorted
    ∧ (List.Pairwise
        (fun a b => (extractStratum a.name).getD 0 ≤ (extractStratum b.name).getD 0)
        strataSorted
      ∧ (∀ n : Nat, strataSorted.filter (fun s => extractStratum s.name = some n)
          = strataProg.filter (fun s => extractStratum s.name = some n))
      ∧ (∀ rels, renderProgramA rels strataProg = renderSortedA rels strataSorted)
      ∧ (∀ rels nodes env2, visitSubsB rels [] strataProg = .ok (nodes, env2) →
          (sortStable (fun d => (bKey d).getD 0) nodes).map bText
            = strataSorted.map Sub.name)) :=
  ⟨rfl, C3_subroutine_order strataProg strataSorted rfl⟩

end SouffleTools


namespace SouffleTools

mutual
theorem collectElem_none : (acc : List Nat) → (e : TupleElement) →
    collectElem none acc e = acc
  | acc, .lit _ => rfl
  | acc, .ref tn i => by
    show (if (none : Option String) = some tn then insertSorted i acc else acc) = acc
    simp
  | acc, .add xs => collectElems_none acc xs
  | acc, .sub xs => collectElems_none acc xs
  | acc, .undef => rfl
  | acc, .functorCall _ args => collectElems_none acc args
  | acc, .bracketed e => collectElem_none acc e
  | acc, .record xs => collectElems_none acc xs

theorem collectElems_none : (acc : List Nat) → (es : List TupleElement) →
    collectElems none acc es = acc
  | _, [] => rfl
  | acc, e :: es => by
    show collectElems none (collectElem none acc e) es = acc
    rw [collectElem_none acc e]
    exact collectElems_none acc es
end

mutual
theorem collectCond_none : (acc : List Nat) → (c : Cond) →
    collectCond none acc c = acc
  | acc, .orC xs => collectConds_none acc xs
  | acc, .andC xs => collectConds_none acc xs
  | acc, .notC c => collectCond_none acc c
  | acc, .inC e _ => collectElem_none acc e
  | acc, .existsC _ _ => rfl
  | acc, .isEmpty _ => rfl
  | acc, .compare lhs _ rhs => by
    show collectElem none (collectElem none acc lhs) rhs = acc
    rw [collectElem_none acc lhs]
    exact collectElem_none acc rhs
  | acc, .bracketedC c => collectCond_none acc c

theorem collectConds_none : (acc : List Nat) → (cs : List Cond) →
    collectConds none acc cs = acc
  | _, [] => rfl
  | acc, c :: cs => by
    show collectConds none (collectCond none acc c) cs = acc
    rw [collectCond_none acc c]
    exact collectConds_none acc cs
end

theorem collectRamCond_none (acc : List Nat) (rc : RamCond) :
    collectRamCond none acc rc = acc :=
  collectConds_none acc rc

end SouffleTools

namespace SouffleTools

theorem visitOpIdx_spec (rels : Catalog) (op : Op) :
    ∀ (idx : List SouffleBTreeIndex),
      visitOpIdx rels ⟨none, [], idx⟩ op
        = (specOpIdx rels op).map (fun ds => ⟨none, [], idx ++ ds⟩) := by
  induction op with
  | declare target agg t rel inner ih =>
    intro idx
    simp only [visitOpIdx, specOpIdx, collectElem_none]
    exact ih idx
  | forloop t rel onIndex inner ih =>
    intro idx
    cases onIndex with
    | none =>
      simp only [visitOpIdx, specOpIdx]
      exact ih idx
    | some rc =>
      have hcr : condRefs t rc = collectRamCond (some t) [] rc := rfl
      simp only [visitOpIdx, specOpIdx, addIndex, hcr]
      cases hrel : dictGet rels (qjoin rel.qname) with
      | none => simp [Except.map]
      | some r =>
        simp only
        cases hattrs : attrsAt r (collectRamCond (some t) [] rc) with
        | error e => simp [Except.map]
        | ok attrs =>
          simp only
          rw [ih]
          cases hspec : specOpIdx rels inner with
          | error e => simp [Except.map]
          | ok rest => simp [Except.map, List.append_assoc]
  | ifOp cond onIndex breaks inner ih =>
    intro idx
    cases onIndex with
    | none =>
      simp only [visitOpIdx, specOpIdx, collectRamCond_none]
      exact ih idx
    | some rc =>
      simp only [visitOpIdx, specOpIdx, collectRamCond_none]
      exact ih idx
  | unpack iden r inner ih =>
    intro idx
    simp only [visitOpIdx, specOpIdx, collectElem_none]
    exact ih idx
  | insert tup rel =>
    intro idx
    simp [visitOpIdx, specOpIdx, collectElems_none, Except.map]
  | erase tup rel =>
    intro idx
    simp [visitOpIdx, specOpIdx, collectElems_none, Except.map]

end SouffleTools

namespace SouffleTools

mutual
theorem visitStmtIdx_spec (rels : Catalog) :
    (s : Stmt) → ∀ (idx : List SouffleBTreeIndex),
      visitStmtIdx rels ⟨none, [], idx⟩ s
        = (specStmtIdx rels s).map (fun ds => ⟨none, [], idx ++ ds⟩)
  | .loop body => fun idx => by
    simpa [visitStmtIdx, specStmtIdx] using visitStmtsIdx_spec rels body idx
  | .query op => fun idx => by
    simpa [visitStmtIdx, specStmtIdx] using visitOpIdx_spec rels op idx
  | .debug info inner => fun idx => by
    simpa [visitStmtIdx, specStmtIdx] using visitStmtIdx_spec rels inner idx
  | .clear rel => fun idx => by simp [visitStmtIdx, specStmtIdx, Except.map]
  | .swap r1 r2 => fun idx => by simp [visitStmtIdx, specStmtIdx, Except.map]
  | .exitS cond => fun idx => by
    simp [visitStmtIdx, specStmtIdx, collectRamCond_none, Except.map]
  | .io rel opts => fun idx => by simp [visitStmtIdx, specStmtIdx, Except.map]

theorem visitStmtsIdx_spec (rels : Catalog) :
    (l : List Stmt) → ∀ (idx : List SouffleBTreeIndex),
      visitStmtsIdx rels ⟨none, [], idx⟩ l
        = (specStmtsIdx rels l).map (fun ds => ⟨none, [], idx ++ ds⟩)
  | [] => fun idx => by simp [visitStmtsIdx, specStmtsIdx, Except.map]
  | s :: rest => fun idx => by
    have hs := visitStmtIdx_spec rels s idx
    simp only [visitStmtsIdx, specStmtsIdx]
    cases hspec : specStmtIdx rels s with
    | error e =>
      rw [hspec] at hs
      simp only [Except.map] at hs
      simp [hs, Except.map]
    | ok ds =>
      rw [hspec] at hs
      simp only [Except.map] at hs
      simp only [hs]
      rw [visitStmtsIdx_spec rels rest (idx ++ ds)]
      cases hrest : specStmtsIdx rels rest with
      | error e => simp [Except.map]
      | ok ds2 => simp [Except.map, List.append_assoc]
end

theorem visitProgIdx_spec (rels : Catalog) (prog : List Sub) :
    ∀ (idx : List SouffleBTreeIndex),
      visitProgIdx rels ⟨none, [], idx⟩ prog
        = (specProgIdx rels prog).map (fun ds => ⟨none, [], idx ++ ds⟩) := by
  induction prog with
  | nil => intro idx; simp [visitProgIdx, specProgIdx, Except.map]
  | cons sub rest ih =>
    intro idx
    have hs := visitStmtsIdx_spec rels sub.stmts idx
    simp only [visitProgIdx, specProgIdx]
    cases hspec : specStmtsIdx rels sub.stmts with
    | error e =>
      rw [hspec] at hs
      simp only [Except.map] at hs
      simp [hs, Except.map]
    | ok ds =>
      rw [hspec] at hs
      simp only [Except.map] at hs
      simp only [hs]
      rw [ih (idx ++ ds)]
      cases hrest : specProgIdx rels rest with
      | error e => simp [Except.map]
      | ok ds2 => simp [Except.map, List.append_assoc]

/-- The stateful `IndexVisitor` traversal computes exactly the per-loop
independent-accumulator specification. -/
theorem inferIndexes_eq_spec (rels : Catalog) (prog : List Sub) :
    inferIndexes rels prog = specProgIdx rels prog := by
  have h := visitProgIdx_spec rels prog []
  simp only [inferIndexes, idxInit]
  rw [h]
  cases hspec : specProgIdx rels prog with
  | error e => simp [Except.map]
  | ok ds => simp [Except.map]

end SouffleTools

namespace SouffleTools

/-- C5: descriptor independence — for every program, the stateful
index-inference traversal (one shared `_tuple_attrs` field, reset by each
`_add_index`) computes exactly the per-loop specification in which every
`ForLoop` carrying an on-index condition gets a fresh, independent
accumulator over its own bound variable and its own condition; hence no
cross-contamination between nested or sibling loops' column sets. -/
theorem C5_independent_accumulators (rels : Catalog) (prog : List Sub) :
    inferIndexes rels prog = specProgIdx rels prog :=
  inferIndexes_eq_spec rels prog

/-- C4: for a `ForLoop` over `R(a:number, b:symbol, c:number)` bound to
`t` whose on-index condition references exactly `Ref(t,0)` and `Ref(t,2)`
(in any reference order — the collected, sorted column set being `[0, 2]`),
index inference emits exactly one descriptor for `R`, namely
`BTREE(a:number, c:number)`: the schema attributes at the referenced
positions in ascending column order. -/
theorem C4_single_descriptor (t : String) (c : RamCond)
    (h : condRefs t c = [0, 2]) :
    inferIndexes cat3 (idxProg t c)
      = .ok [⟨"R", [("a", "number"), ("c", "number")]⟩] := by
  rw [inferIndexes_eq_spec]
  simp only [idxProg, specProgIdx, specStmtsIdx, specStmtIdx, specOpIdx, h]
  rfl

/-- Witness for the single-descriptor theorem at a condition referencing
`Ref(t,2)` before `Ref(t,0)`. -/
theorem C4_single_descriptor_witness :
    condRefs "t" cond20 = [0, 2]
    ∧ inferIndexes cat3 (idxProg "t" cond20)
        = .ok [⟨"R", [("a", "number"), ("c", "number")]⟩] :=
  ⟨rfl, C4_single_descriptor "t" cond20 rfl⟩

theorem mem_insertSorted (n a : Nat) (l : List Nat) :
    a ∈ insertSorted n l ↔ a = n ∨ a ∈ l := by
  induction l with
  | nil => simp [insertSorted]
  | cons m ms ih =>
    simp only [insertSorted]
    split
    · simp [List.mem_cons]
    · split
      · rename_i h1 h2
        subst h2
        simp [List.mem_cons]
      · simp only [List.mem_cons, ih]
        tauto

theorem insertSorted_pairwise (n : Nat) (l : List Nat)
    (h : l.Pairwise (· < ·)) : (insertSorted n l).Pairwise (· < ·) := by
  induction l with
  | nil => simp [insertSorted]
  | cons m ms ih =>
    rcases List.pairwise_cons.mp h with ⟨hm, hms⟩
    simp only [insertSorted]
    split
    · rename_i h1
      refine List.pairwise_cons.mpr ⟨?_, h⟩
      intro b hb
      rcases List.mem_cons.mp hb with rfl | hb
      · exact h1
      · exact lt_trans h1 (hm b hb)
    · split
      · exact h
      · rename_i h1 h2
        refine List.pairwise_cons.mpr ⟨?_, ih hms⟩
        intro b hb
        rcases (mem_insertSorted n b ms).mp hb with rfl | hb
        · omega
        · exact hm b hb

mutual
theorem collectElem_pairwise (nm : Option String) :
    (acc : List Nat) → (e : TupleElement) → acc.Pairwise (· < ·) →
      (collectElem nm acc e).Pairwise (· < ·)
  | acc, .lit _, h => h
  | acc, .ref tn i, h => by
    show (if nm = some tn then insertSorted i acc else acc).Pairwise (· < ·)
    split
    · exact insertSorted_pairwise i acc h
    · exact h
  | acc, .add xs, h => collectElems_pairwise nm acc xs h
  | acc, .sub xs, h => collectElems_pairwise nm acc xs h
  | acc, .undef, h => h
  | acc, .functorCall _ args, h => collectElems_pairwise nm acc args h
  | acc, .bracketed e, h => collectElem_pairwise nm acc e h
  | acc, .record xs, h => collectElems_pairwise nm acc xs h

theorem collectElems_pairwise (nm : Option String) :
    (acc : List Nat) → (es : List TupleElement) → acc.Pairwise (· < ·) →
      (collectElems nm acc es).Pairwise (· < ·)
  | _, [], h => h
  | acc, e :: es, h =>
    collectElems_pairwise nm (collectElem nm acc e) es (collectElem_pairwise nm acc e h)
end

mutual
theorem collectCond_pairwise (nm : Option String) :
    (acc : List Nat) → (c : Cond) → acc.Pairwise (· < ·) →
      (collectCond nm acc c).Pairwise (· < ·)
  | acc, .orC xs, h => collectConds_pairwise nm acc xs h
  | acc, .andC xs, h => collectConds_pairwise nm acc xs h
  | acc, .notC c, h => collectCond_pairwise nm acc c h
  | acc, .inC e _, h => collectElem_pairwise nm acc e h
  | _, .existsC _ _, h => h
  | _, .isEmpty _, h => h
  | acc, .compare lhs _ rhs, h =>
    collectElem_pairwise nm (collectElem nm acc lhs) rhs (collectElem_pairwise nm acc lhs h)
  | acc, .bracketedC c, h => collectCond_pairwise nm acc c h

theorem collectConds_pairwise (nm : Option String) :
    (acc : List Nat) → (cs : List Cond) → acc.Pairwise (· < ·) →
      (collectConds nm acc cs).Pairwise (· < ·)
  | _, [], h => h
  | acc, c :: cs, h =>
    collectConds_pairwise nm (collectCond nm acc c) cs (collectCond_pairwise nm acc c h)
end

/-- The per-loop collected column set is strictly increasing. -/
theorem condRefs_pairwise (t : String) (rc : RamCond) :
    (condRefs t rc).Pairwise (· < ·) :=
  collectConds_pairwise (some t) [] rc List.Pairwise.nil

theorem specOpIdx_descr (rels : Catalog) (op : Op) :
    ∀ ds, specOpIdx rels op = .ok ds →
      ∀ d ∈ ds, ∃ (rel : Relation) (idxs : List Nat),
        dictGet rels d.relname = some rel
        ∧ idxs.Pairwise (· < ·)
        ∧ attrsAt rel idxs = .ok d.attrs := by
  induction op with
  | declare target agg t rel inner ih =>
    intro ds h; exact ih ds h
  | forloop t rel onIndex inner ih =>
    intro ds h
    cases onIndex with
    | none => exact ih ds h
    | some rc =>
      simp only [specOpIdx] at h
      cases hrel : dictGet rels (qjoin rel.qname) with
      | none => simp [hrel] at h
      | some r =>
        simp only [hrel] at h
        cases hattrs : attrsAt r (condRefs t rc) with
        | error e => simp [hattrs] at h
        | ok attrs =>
          simp only [hattrs] at h
          cases hspec : specOpIdx rels inner with
          | error e => simp [hspec] at h
          | ok rest =>
            simp only [hspec] at h
            cases h
            intro d hd
            rcases List.mem_cons.mp hd with rfl | hd
            · exact ⟨r, condRefs t rc, hrel, condRefs_pairwise t rc, hattrs⟩
            · exact ih rest hspec d hd
  | ifOp cond onIndex breaks inner ih =>
    intro ds h; exact ih ds h
  | unpack iden r inner ih =>
    intro ds h; exact ih ds h
  | insert tup rel =>
    intro ds h
    cases h
    intro d hd
    cases hd
  | erase tup rel =>
    intro ds h
    cases h
    intro d hd
    cases hd

mutual
theorem specStmtIdx_descr (rels : Catalog) :
    (s : Stmt) → ∀ ds, specStmtIdx rels s = .ok ds →
      ∀ d ∈ ds, ∃ (rel : Relation) (idxs : List Nat),
        dictGet rels d.relname = some rel
        ∧ idxs.Pairwise (· < ·)
        ∧ attrsAt rel idxs = .ok d.attrs
  | .loop body => specStmtsIdx_descr rels body
  | .query op => specOpIdx_descr rels op
  | .debug info inner => specStmtIdx_descr rels inner
  | .clear rel => by intro ds h; cases h; intro d hd; cases hd
  | .swap r1 r2 => by intro ds h; cases h; intro d hd; cases hd
  | .exitS cond => by intro ds h; cases h; intro d hd; cases hd
  | .io rel opts => by intro ds h; cases h; intro d hd; cases hd

theorem specStmtsIdx_descr (rels : Catalog) :
    (l : List Stmt) → ∀ ds, specStmtsIdx rels l = .ok ds →
      ∀ d ∈ ds, ∃ (rel : Relation) (idxs : List Nat),
        dictGet rels d.relname = some rel
        ∧ idxs.Pairwise (· < ·)
        ∧ attrsAt rel idxs = .ok d.attrs
  | [] => by intro ds h; cases h; intro d hd; cases hd
  | s :: rest => by
    intro ds h
    simp only [specStmtsIdx] at h
    cases h1 : specStmtIdx rels s with
    | error e => simp [h1] at h
    | ok ds1 =>
      simp only [h1] at h
      cases h2 : specStmtsIdx rels rest with
      | error e => simp [h2] at h
      | ok ds2 =>
        simp only [h2] at h
        cases h
        intro d hd
        rcases List.mem_append.mp hd with hd | hd
        · exact specStmtIdx_descr rels s ds1 h1 d hd
        · exact specStmtsIdx_descr rels rest ds2 h2 d hd
end

theorem specProgIdx_descr (rels : Catalog) (prog : List Sub) :
    ∀ ds, specProgIdx rels prog = .ok ds →
      ∀ d ∈ ds, ∃ (rel : Relation) (idxs : List Nat),
        dictGet rels d.relname = some rel
        ∧ idxs.Pairwise (· < ·)
        ∧ attrsAt rel idxs = .ok d.attrs := by
  induction prog with
  | nil => intro ds h; cases h; intro d hd; cases hd
  | cons sub rest ih =>
    intro ds h
    simp only [specProgIdx] at h
    cases h1 : specStmtsIdx rels sub.stmts with
    | error e => simp [h1] at h
    | ok ds1 =>
      simp only [h1] at h
      cases h2 : specProgIdx rels rest with
      | error e => simp [h2] at h
      | ok ds2 =>
        simp only [h2] at h
        cases h
        intro d hd
        rcases List.mem_append.mp hd with hd | hd
        · exact specStmtsIdx_descr rels sub.stmts ds1 h1 d hd
        · exact ih ds2 h2 d hd

end SouffleTools

namespace SouffleTools

theorem specOpIdx_error_of_unresolved (rels : Catalog) (op : Op) :
    hasUnresolvedScanOp rels op = true → ∃ e, specOpIdx rels op = .error e := by
  induction op with
  | declare target agg t rel inner ih =>
    intro h
    simp only [hasUnresolvedScanOp] at h
    rcases ih h with ⟨e, he⟩
    exact ⟨e, by simpa [specOpIdx] using he⟩
  | forloop t rel onIndex inner ih =>
    intro h
    simp only [hasUnresolvedScanOp, Bool.or_eq_true, Bool.and_eq_true] at h
    cases onIndex with
    | none =>
      have hinner : hasUnresolvedScanOp rels inner = true := by
        rcases h with ⟨habs, _⟩ | h2
        · simp at habs
        · exact h2
      rcases ih hinner with ⟨e, he⟩
      exact ⟨e, by simpa [specOpIdx] using he⟩
    | some rc =>
      cases hrel : dictGet rels (qjoin rel.qname) with
      | none => exact ⟨"AssertionError", by simp [specOpIdx, hrel]⟩
      | some r =>
        have hinner : hasUnresolvedScanOp rels inner = true := by
          rcases h with ⟨_, habs⟩ | h2
          · rw [hrel] at habs; simp [Option.isNone] at habs
          · exact h2
        rcases ih hinner with ⟨e, he⟩
        cases hattrs : attrsAt r (condRefs t rc) with
        | error e2 => exact ⟨e2, by simp [specOpIdx, hrel, hattrs]⟩
        | ok attrs => exact ⟨e, by simp [specOpIdx, hrel, hattrs, he]⟩
  | ifOp cond onIndex breaks inner ih =>
    intro h
    simp only [hasUnresolvedScanOp] at h
    rcases ih h with ⟨e, he⟩
    exact ⟨e, by simpa [specOpIdx] using he⟩
  | unpack iden r inner ih =>
    intro h
    simp only [hasUnresolvedScanOp] at h
    rcases ih h with ⟨e, he⟩
    exact ⟨e, by simpa [specOpIdx] using he⟩
  | insert tup rel => intro h; simp [hasUnresolvedScanOp] at h
  | erase tup rel => intro h; simp [hasUnresolvedScanOp] at h

mutual
theorem specStmtIdx_error_of_unresolved (rels : Catalog) :
    (s : Stmt) → hasUnresolvedScanStmt rels s = true →
      ∃ e, specStmtIdx rels s = .error e
  | .loop body => fun h => by
    rcases specStmtsIdx_error_of_unresolved rels body h with ⟨e, he⟩
    exact ⟨e, by simpa [specStmtIdx] using he⟩
  | .query op => fun h => by
    rcases specOpIdx_error_of_unresolved rels op h with ⟨e, he⟩
    exact ⟨e, by simpa [specStmtIdx] using he⟩
  | .debug info inner => fun h => by
    rcases specStmtIdx_error_of_unresolved rels inner h with ⟨e, he⟩
    exact ⟨e, by simpa [specStmtIdx] using he⟩
  | .clear rel => fun h => by simp [hasUnresolvedScanStmt] at h
  | .swap r1 r2 => fun h => by simp [hasUnresolvedScanStmt] at h
  | .exitS cond => fun h => by simp [hasUnresolvedScanStmt] at h
  | .io rel opts => fun h => by simp [hasUnresolvedScanStmt] at h

theorem specStmtsIdx_error_of_unresolved (rels : Catalog) :
    (l : List Stmt) → hasUnresolvedScanStmts rels l = true →
      ∃ e, specStmtsIdx rels l = .error e
  | [] => fun h => by simp [hasUnresolvedScanStmts] at h
  | s :: rest => fun h => by
    simp only [hasUnresolvedScanStmts, Bool.or_eq_true] at h
    cases h1 : specStmtIdx rels s with
    | error e => exact ⟨e, by simp [specStmtsIdx, h1]⟩
    | ok ds1 =>
      have hrest : hasUnresolvedScanStmts rels rest = true := by
        rcases h with hs | hr
        · rcases specStmtIdx_error_of_unresolved rels s hs with ⟨e, he⟩
          rw [h1] at he
          cases he
        · exact hr
      rcases specStmtsIdx_error_of_unresolved rels rest hrest with ⟨e, he⟩
      exact ⟨e, by simp [specStmtsIdx, h1, he]⟩
end

theorem specProgIdx_error_of_unresolved (rels : Catalog) (prog : List Sub) :
    hasUnresolvedScanProg rels prog = true →
      ∃ e, specProgIdx rels prog = .error e := by
  induction prog with
  | nil => intro h; simp [hasUnresolvedScanProg] at h
  | cons sub rest ih =>
    intro h
    simp only [hasUnresolvedScanProg, Bool.or_eq_true] at h
    cases h1 : specStmtsIdx rels sub.stmts with
    | error e => exact ⟨e, by simp [specProgIdx, h1]⟩
    | ok ds1 =>
      have hrest : hasUnresolvedScanProg rels rest = true := by
        rcases h with hs | hr
        · rcases specStmtsIdx_error_of_unresolved rels sub.stmts hs with ⟨e, he⟩
          rw [h1] at he
          cases he
        · exact hr
      rcases ih hrest with ⟨e, he⟩
      exact ⟨e, by simp [specProgIdx, h1, he]⟩

/-- C6: every relation name appearing in the index-inference output is
present in the schema catalog, and a `ForLoop` with an on-index condition
scanning an uncatalogued relation makes the whole pass fail (an
AssertionError surfaces before any descriptor for it is emitted), so no
descriptor for any relation is produced at all in that case. -/
theorem C6_catalog_guarantee (rels : Catalog) (prog : List Sub) :
    (∀ out, inferIndexes rels prog = .ok out →
        ∀ d ∈ out, (dictGet rels d.relname).isSome = true)
    ∧ (hasUnresolvedScanProg rels prog = true →
        ∃ e, inferIndexes rels prog = .error e) := by
  constructor
  · intro out h d hd
    rw [inferIndexes_eq_spec] at h
    rcases specProgIdx_descr rels prog out h d hd with ⟨rel, idxs, hrel, _, _⟩
    simp [hrel]
  · intro h
    simp only [inferIndexes_eq_spec]
    exact specProgIdx_error_of_unresolved rels prog h

/-- Witness for the catalog guarantee: the inferred descriptors of the
concrete single-loop program are all catalogued, and the program scanning
the uncatalogued `T` on index makes the pass fail. -/
theorem C6_catalog_guarantee_witness :
    (∀ d ∈ [(⟨"R", [("a", "number"), ("c", "number")]⟩ : SouffleBTreeIndex)],
      (dictGet cat3 d.relname).isSome = true)
    ∧ (∃ e, inferIndexes cat2 idxProgBad = .error e) :=
  ⟨(C6_catalog_guarantee cat3 (idxProg "t" cond20)).1
      [⟨"R", [("a", "number"), ("c", "number")]⟩] rfl,
   (C6_catalog_guarantee cat2 idxProgBad).2 rfl⟩

/-- C10: every emitted descriptor's attribute list is the relation's
schema read off at a strictly increasing list of column indices — a column
referenced several times by the on-index condition appears at most once. -/
theorem C10_descriptor_columns_strict (rels : Catalog) (prog : List Sub)
    (out : List SouffleBTreeIndex) (h : inferIndexes rels prog = .ok out) :
    ∀ d ∈ out, ∃ (rel : Relation) (idxs : List Nat),
      dictGet rels d.relname = some rel
      ∧ idxs.Pairwise (· < ·)
      ∧ attrsAt rel idxs = .ok d.attrs := by
  rw [inferIndexes_eq_spec] at h
  exact specProgIdx_descr rels prog out h

/-- Witness for the strictly-increasing-columns theorem at a condition
referencing `Ref(t,1)` twice and `Ref(t,0)` once: the descriptor lists
columns 0 and 1 once each. -/
theorem C10_descriptor_columns_strict_witness :
    inferIndexes cat3 (idxProg "t"
        [.compare (.ref "t" 1) "=" (.ref "t" 1),
         .compare (.ref "t" 0) "=" (.lit "5")])
      = .ok [⟨"R", [("a", "number"), ("b", "symbol")]⟩]
    ∧ (∀ d ∈ [(⟨"R", [("a", "number"), ("b", "symbol")]⟩ : SouffleBTreeIndex)],
        ∃ (rel : Relation) (idxs : List Nat),
          dictGet cat3 d.relname = some rel
          ∧ idxs.Pairwise (· < ·)
          ∧ attrsAt rel idxs = .ok d.attrs) :=
  ⟨rfl,
   C10_descriptor_columns_strict cat3
     (idxProg "t"
        [.compare (.ref "t" 1) "=" (.ref "t" 1),
         .compare (.ref "t" 0) "=" (.lit "5")])
     [⟨"R", [("a", "number"), ("b", "symbol")]⟩] rfl⟩

end SouffleTools

namespace SouffleTools

/-- C7 counterexample: the claim says a missing filename option is simply
omitted from the rendered `Io` line.  For a relation whose own name ends
in `.dl` (here `a.dl`) both renderers instead raise KeyError: the code
defaults the missing filename to the relation name, strips `.dl` from it,
finds it different from the relation name, and then reads the absent
`filename` key unconditionally. -/
theorem C7_io_counterexample :
    ioStmtA "a.dl" [("operation", "output")] = .error "KeyError: filename"
    ∧ ioStmtB "a.dl" [("operation", "output")] = .error "KeyError: filename" :=
  ⟨rfl, rfl⟩

/-- C7 amended: for every `Io` statement whose operation option is input
or output, and which is not in the corner where the filename option is
absent while the relation's own name ends in `.dl` (there both renderers
raise KeyError instead of rendering), both renderers produce exactly the
claimed line: the filename appears iff it is present and differs from the
relation name after stripping the `.dl` suffix, and the delimiter is the
option's value, defaulting to a tab character when absent. -/
theorem C7_io_amended (relname : String) (opts : List (String × String)) (opv : String)
    (hop : ioGet opts "operation" = some opv)
    (hv : opv = "input" ∨ opv = "output")
    (hcorner : ioGet opts "filename" = none → removeSuffix relname ".dl" = relname) :
    ioStmtA relname opts = .ok (specIoLineA relname opts)
    ∧ ioStmtB relname opts = .ok (specIoLineB relname opts) := by
  constructor
  · simp only [ioStmtA, specIoLineA, hop]
    rw [if_pos hv]
    cases hf : ioGet opts "filename" with
    | none =>
      have hr := hcorner hf
      simp [hf, hr]
    | some f =>
      simp only [hf, Option.getD_some]
      by_cases hd : removeSuffix f ".dl" ≠ relname
      · simp [hd]
      · simp [hd]
  · simp only [ioStmtB, specIoLineB, hop, Option.getD_some]
    have htok :
        (if opv = "input" then Except.ok "INPUT FROM"
         else if opv = "output" then Except.ok "OUTPUT TO"
         else Except.error ("RuntimeError: Unrecognized IO operation " ++ opv))
          = Except.ok (if opv = "input" then "INPUT FROM" else "OUTPUT TO") := by
      rcases hv with rfl | rfl <;> simp
    rw [htok]
    cases hf : ioGet opts "filename" with
    | none =>
      have hr := hcorner hf
      simp [hf, hr]
    | some f =>
      simp only [hf, Option.getD_some]
      by_cases hd : removeSuffix f ".dl" ≠ relname
      · simp [hd]
      · simp [hd]

/-- Witness for the amended `Io` theorem: a differing filename is
included, a filename equal to the relation after suffix-stripping is
omitted, and an absent filename for an ordinary relation name is
omitted. -/
theorem C7_io_amended_witness :
    (ioStmtA "orders" [("operation", "output"), ("filename", "orders_v2.facts")]
        = .ok (specIoLineA "orders" [("operation", "output"), ("filename", "orders_v2.facts")])
      ∧ ioStmtB "orders" [("operation", "output"), ("filename", "orders_v2.facts")]
        = .ok (specIoLineB "orders" [("operation", "output"), ("filename", "orders_v2.facts")]))
    ∧ (ioStmtA "orders" [("operation", "output"), ("filename", "orders.dl")]
        = .ok (specIoLineA "orders" [("operation", "output"), ("filename", "orders.dl")])
      ∧ ioStmtB "orders" [("operation", "output"), ("filename", "orders.dl")]
        = .ok (specIoLineB "orders" [("operation", "output"), ("filename", "orders.dl")]))
    ∧ (ioStmtA "orders" [("operation", "input")]
        = .ok (specIoLineA "orders" [("operation", "input")])
      ∧ ioStmtB "orders" [("operation", "input")]
        = .ok (specIoLineB "orders" [("operation", "input")])) :=
  ⟨C7_io_amended "orders" [("operation", "output"), ("filename", "orders_v2.facts")]
      "output" rfl (Or.inr rfl) (fun hh => absurd hh (by decide)),
   C7_io_amended "orders" [("operation", "output"), ("filename", "orders.dl")]
      "output" rfl (Or.inr rfl) (fun hh => absurd hh (by decide)),
   C7_io_amended "orders" [("operation", "input")]
      "input" rfl (Or.inl rfl) (fun _ => by decide)⟩

end SouffleTools

namespace SouffleTools

mutual
theorem planStr_scrub : (d : BDoc) → ∀ pre, planStr pre (scrubB d) = planStr pre d
  | .junk => fun _ => rfl
  | .node t c info sep tr => fun pre => by
    show planStr pre (.node t (scrubBs c) none sep tr) = planStr pre (.node t c info sep tr)
    simp only [planStr]
    rw [planStrList_scrub c]

theorem planStrList_scrub :
    (l : List BDoc) → ∀ pre, planStrList pre (scrubBs l) = planStrList pre l
  | [] => fun _ => rfl
  | d :: ds => fun pre => by
    show planStrList pre (scrubB d :: scrubBs ds) = planStrList pre (d :: ds)
    simp only [planStrList]
    rw [planStr_scrub d, planStrList_scrub ds]
end

theorem scrubBs_append (a b : List BDoc) :
    scrubBs (a ++ b) = scrubBs a ++ scrubBs b := by
  induction a with
  | nil => rfl
  | cons d ds ih => simp [scrubBs, ih]

theorem scrubB_leafNode (s : String) : scrubB (leafNode s) = leafNode s := rfl

theorem visitOpB_scrub (rels : Catalog) (op : Op) :
    ∀ acc env d env2, scrubBs acc = acc →
      visitOpB rels acc env op = .ok (d, env2) → scrubB d = d := by
  induction op with
  | declare target agg t rel inner ih =>
    intro acc env d env2 hacc h
    simp only [visitOpB, bind, Except.bind] at h
    cases hr : renderElemB env target with
    | error e => simp only [hr] at h; cases h
    | ok tgt =>
      simp only [hr] at h
      refine ih _ env d env2 ?_ h
      rw [scrubBs_append, hacc]
      rfl
  | forloop t rel onIndex inner ih =>
    intro acc env d env2 hacc h
    simp only [visitOpB, bind, Except.bind] at h
    cases hrel : dictGet rels (qjoin rel.qname) with
    | none => simp only [hrel] at h; cases h
    | some r =>
      simp only [hrel] at h
      have htail : ∀ (cnd : String) (p : BDoc) (env3 : Env),
          visitOpB rels
              (acc ++ [leafNode ("for " ++ t ++ " ∈ " ++ renderRelB rel ++ cnd)])
              (dictSet env t r) inner = .ok (p, env3) → scrubB p = p :=
        fun cnd p env3 hin =>
          ih _ (dictSet env t r) p env3 (by rw [scrubBs_append, hacc]; rfl) hin
      cases onIndex with
      | none =>
        simp only [pure, Except.pure] at h
        cases hin : visitOpB rels
            (acc ++ [leafNode ("for " ++ t ++ " ∈ " ++ renderRelB rel ++ "")])
            (dictSet env t r) inner with
        | error e => simp only [hin] at h; cases h
        | ok pe =>
          simp only [hin] at h
          obtain ⟨p, env3⟩ := pe
          cases hdel : dictDel env3 t with
          | none => simp only [hdel] at h; cases h
          | some env4 =>
            simp only [hdel] at h
            cases h
            exact htail "" _ _ hin
      | some rc =>
        cases hcnd : renderRamCondB (dictSet env t r) rc with
        | error e => simp only [hcnd, Except.map] at h; cases h
        | ok cs =>
          simp only [hcnd, Except.map] at h
          cases hin : visitOpB rels
              (acc ++ [leafNode ("for " ++ t ++ " ∈ " ++ renderRelB rel ++ (" if " ++ cs))])
              (dictSet env t r) inner with
          | error e => simp only [hin] at h; cases h
          | ok pe =>
            simp only [hin] at h
            obtain ⟨p, env3⟩ := pe
            cases hdel : dictDel env3 t with
            | none => simp only [hdel] at h; cases h
            | some env4 =>
              simp only [hdel] at h
              cases h
              exact htail (" if " ++ cs) _ _ hin
  | ifOp cond onIndex breaks inner ih =>
    intro acc env d env2 hacc h
    by_cases hb : breaks
    · rw [show visitOpB rels acc env (.ifOp cond onIndex breaks inner)
          = visitOpB rels acc env inner by simp [visitOpB, hb]] at h
      exact ih acc env d env2 hacc h
    · simp only [visitOpB, hb, if_neg, bind, Except.bind, ite_false] at h
      cases hc : renderRamCondB env cond with
      | error e => simp only [hc] at h; cases h
      | ok c =>
        simp only [hc] at h
        have htail : ∀ idx : String,
            visitOpB rels (acc ++ [leafNode ("if " ++ c ++ idx)]) env inner
              = Except.ok (d, env2) → scrubB d = d := by
          intro idx hh
          refine ih _ env d env2 ?_ hh
          rw [scrubBs_append, hacc]
          rfl
        cases onIndex with
        | none =>
          simp only [pure, Except.pure] at h
          exact htail "" h
        | some rc =>
          cases hidx : renderRamCondB env rc with
          | error e => simp only [hidx, Except.map] at h; cases h
          | ok s2 =>
            simp only [hidx, Except.map] at h
            exact htail (" using index " ++ s2) h
  | unpack iden r inner ih =>
    intro acc env d env2 hacc h
    simp only [visitOpB, bind, Except.bind] at h
    cases hr : renderElemB env r with
    | error e => simp only [hr] at h; cases h
    | ok rs =>
      simp only [hr] at h
      refine ih _ env d env2 ?_ h
      rw [scrubBs_append, hacc]
      rfl
  | insert tup rel =>
    intro acc env d env2 hacc h
    simp only [visitOpB, bind, Except.bind] at h
    cases hr : renderElemsB env tup with
    | error e => simp only [hr] at h; cases h
    | ok ts =>
      simp only [hr] at h
      cases h
      show BDoc.node _ (scrubBs acc) none _ _ = _
      rw [hacc]
  | erase tup rel =>
    intro acc env d env2 hacc h
    simp only [visitOpB, bind, Except.bind] at h
    cases hr : renderElemsB env tup with
    | error e => simp only [hr] at h; cases h
    | ok ts =>
      simp only [hr] at h
      cases h
      rfl

end SouffleTools

namespace SouffleTools

mutual
theorem visitStmtB_strip (rels : Catalog) :
    (t : Stmt) → ∀ env d env2,
      visitStmtB rels env t = .ok (d, env2) →
      visitStmtB rels env (stripDebugStmt t) = .ok (scrubB d, env2)
  | .loop body => fun env d env2 h => by
    simp only [visitStmtB, bind, Except.bind] at h
    cases hb : visitStmtsB rels env body with
    | error e => simp only [hb] at h; cases h
    | ok pe =>
      simp only [hb] at h
      obtain ⟨cs, env3⟩ := pe
      cases h
      have hl := visitStmtsB_strip rels body env cs env3 hb
      show visitStmtB rels env (.loop (stripDebugStmts body)) = _
      simp only [visitStmtB, bind, Except.bind, hl]
      rfl
  | .query op => fun env d env2 h => by
    have hs : scrubB d = d := visitOpB_scrub rels op [] env d env2 rfl h
    show visitStmtB rels env (.query op) = _
    rw [hs]
    exact h
  | .debug info inner => fun env d env2 h => by
    simp only [visitStmtB, bind, Except.bind] at h
    cases hi : visitStmtB rels env inner with
    | error e => simp only [hi] at h; cases h
    | ok pe =>
      simp only [hi] at h
      obtain ⟨p, env3⟩ := pe
      cases p with
      | junk => cases h
      | node tx c inf sep tr =>
        cases h
        exact (visitStmtB_strip rels inner env (BDoc.node tx c inf sep tr) env3 hi).trans rfl
  | .clear rel => fun env d env2 h => by
    simp only [visitStmtB] at h ⊢
    cases h
    rfl
  | .swap r1 r2 => fun env d env2 h => by
    simp only [visitStmtB] at h ⊢
    cases h
    rfl
  | .exitS cond => fun env d env2 h => by
    simp only [visitStmtB, bind, Except.bind] at h ⊢
    cases hc : renderRamCondB env cond with
    | error e => simp only [hc] at h; cases h
    | ok c =>
      simp only [hc] at h ⊢
      cases h
      rfl
  | .io rel opts => fun env d env2 h => by
    simp only [visitStmtB, bind, Except.bind] at h ⊢
    cases hline : ioStmtB (renderRelB rel) opts with
    | error e => simp only [hline] at h; cases h
    | ok line =>
      simp only [hline] at h ⊢
      cases h
      rfl

theorem visitStmtsB_strip (rels : Catalog) :
    (l : List Stmt) → ∀ env cs env2,
      visitStmtsB rels env l = .ok (cs, env2) →
      visitStmtsB rels env (stripDebugStmts l) = .ok (scrubBs cs, env2)
  | [] => fun env cs env2 h => by
    simp only [visitStmtsB] at h
    cases h
    rfl
  | s :: rest => fun env cs env2 h => by
    simp only [visitStmtsB, bind, Except.bind] at h
    cases h1 : visitStmtB rels env s with
    | error e => simp only [h1] at h; cases h
    | ok pe =>
      simp only [h1] at h
      obtain ⟨p, env3⟩ := pe
      cases h2 : visitStmtsB rels env3 rest with
      | error e => simp only [h2] at h; cases h
      | ok pe2 =>
        simp only [h2] at h
        obtain ⟨ps, env4⟩ := pe2
        cases h
        have hs := visitStmtB_strip rels s env p env3 h1
        have hr := visitStmtsB_strip rels rest env3 ps env4 h2
        show visitStmtsB rels env (stripDebugStmt s :: stripDebugStmts rest) = _
        simp only [visitStmtsB, bind, Except.bind, hs, hr]
        rfl
end

end SouffleTools

namespace SouffleTools

/-- C8 counterexample: the claim says `Debug(info, S)` renders as `S` with
attached leading commentary derived from `info` in either renderer.  In
renderer B the payload is stored on the node's `debug_info` field, which
`PlanNode.__str__` never reads: the rendered document of the wrapped
statement is byte-for-byte the rendering of the bare statement, with no
trace of the nonempty payload. -/
theorem C8_debug_counterexample :
    visitStmtB [] [] (.debug "NOTE-A" (.clear rrR))
      = .ok (.node "R = ∅" [] (some "NOTE-A") "" none, [])
    ∧ visitStmtB [] [] (.clear rrR) = .ok (.node "R = ∅" [] none "" none, [])
    ∧ planStr "" (.node "R = ∅" [] (some "NOTE-A") "" none) = .ok "R = ∅\n"
    ∧ planStr "" (.node "R = ∅" [] none "" none) = .ok "R = ∅\n" :=
  ⟨rfl, rfl, rfl, rfl⟩

/-- C8 amended: renderer A's `Debug(info, S)` prepends the triple-quoted
commentary derived from the parsed payload to `S`'s own line block,
leaving the lines and children — hence every rendered relation mutation —
unchanged; renderer B's `Debug(info, S)` records the payload on the node
but renders exactly as `S` (its `__str__` ignores `debug_info`), so for
renderer B the rendered document of any tree equals that of the tree with
all Debug wrappers stripped. -/
theorem C8_debug_wrapping :
    (∀ (rels : Catalog) (env : Env) (info : String) (s : Stmt) (x : String)
        (l : List String) (c : List PlanA) (env2 : Env),
        pyEvalStrLit info = some x →
        visitStmtA rels env s = .ok (.dict l c, env2) →
        visitStmtA rels env (.debug info s) = .ok (.dict (debugLines x ++ l) c, env2))
    ∧ (∀ (rels : Catalog) (env : Env) (info : String) (s : Stmt)
        (tx : String) (c : List BDoc) (inf : Option String) (sep : String)
        (tr : Option String) (env2 : Env),
        visitStmtB rels env s = .ok (.node tx c inf sep tr, env2) →
        visitStmtB rels env (.debug info s) = .ok (.node tx c (some info) sep tr, env2))
    ∧ (∀ (info tx : String) (c : List BDoc) (sep : String) (tr : Option String)
        (pre : String),
        planStr pre (.node tx c (some info) sep tr)
          = planStr pre (.node tx c none sep tr))
    ∧ (∀ (rels : Catalog) (t : Stmt) (env : Env) (d : BDoc) (env2 : Env),
        visitStmtB rels env t = .ok (d, env2) →
        visitStmtB rels env (stripDebugStmt t) = .ok (scrubB d, env2)
          ∧ ∀ pre, planStr pre (scrubB d) = planStr pre d) := by
  refine ⟨?_, ?_, ?_, ?_⟩
  · intro rels env info s x l c env2 hx hs
    simp only [visitStmtA, hx, bind, Except.bind, hs]
  · intro rels env info s tx c inf sep tr env2 hs
    simp only [visitStmtB, bind, Except.bind, hs]
  · intro info tx c sep tr pre
    rfl
  · intro rels t env d env2 h
    exact ⟨visitStmtB_strip rels t env d env2 h, fun pre => planStr_scrub d pre⟩

/-- Witness for the Debug-wrapping theorem: renderer A prepends the
parsed commentary to a loop statement; renderer B stores and then drops a
payload on a clear statement, rendering identically to the stripped
tree. -/
theorem C8_debug_wrapping_witness :
    pyEvalStrLit "\"hi\"" = some "hi"
    ∧ visitStmtA [] [] (.loop []) = .ok (.dict ["while True:"] [], [])
    ∧ visitStmtA [] [] (.debug "\"hi\"" (.loop []))
        = .ok (.dict (debugLines "hi" ++ ["while True:"]) [], [])
    ∧ visitStmtB [] [] (.clear rrR) = .ok (.node "R = ∅" [] none "" none, [])
    ∧ visitStmtB [] [] (.debug "note2" (.clear rrR))
        = .ok (.node "R = ∅" [] (some "note2") "" none, [])
    ∧ (visitStmtB [] [] (stripDebugStmt (.debug "note2" (.clear rrR)))
        = .ok (scrubB (.node "R = ∅" [] (some "note2") "" none), [])
      ∧ ∀ pre, planStr pre (scrubB (.node "R = ∅" [] (some "note2") "" none))
          = planStr pre (.node "R = ∅" [] (some "note2") "" none)) :=
  ⟨rfl, rfl,
   C8_debug_wrapping.1 [] [] "\"hi\"" (.loop []) "hi" ["while True:"] [] [] rfl rfl,
   rfl,
   C8_debug_wrapping.2.1 [] [] "note2" (.clear rrR) "R = ∅" [] none "" none [] rfl,
   C8_debug_wrapping.2.2.2 [] (.debug "note2" (.clear rrR)) []
     (.node "R = ∅" [] (some "note2") "" none) [] rfl⟩

end SouffleTools
